import Mathlib

/-!
Verification of the `add_mod` / `mul_mod` builtin runner
(`vm/src/vm/runners/builtin_runner/modulo.rs`).

This file shallowly embeds the runner's data model and operations:
big integers become `Nat`, field elements stored in memory cells become
`Nat` (every limb the runner handles is bounded by `shift`), fallible
Rust code becomes `Except`, and the mutable VM memory becomes explicit
state passing over an association-list memory.  Rust panics
(`BigUint` subtraction underflow, `mod_floor` by zero) are modelled as
dedicated error values so that "returns without error" is meaningful.

The collaborators that are outside the sources (`Memory`,
`safe_div_usize`, `div_mod_unsigned`) are modelled from the spec and
are marked as such in their doc comments.
-/

set_option maxRecDepth 10000
set_option linter.unusedVariables false
set_option linter.unnecessarySimpa false

namespace ModBuiltin

/-- Constant from the source: `FILL_MEMORY_MAX = 100000`. -/
def FILL_MEMORY_MAX : Nat := 100000

/-- Constant from the source: `INPUT_CELLS = 7`. -/
def INPUT_CELLS : Nat := 7

/-- Constant from the source: `VALUES_PTR_OFFSET = 4`. -/
def VALUES_PTR_OFFSET : Nat := 4

/-- Constant from the source: `OFFSETS_PTR_OFFSET = 5`. -/
def OFFSETS_PTR_OFFSET : Nat := 5

/-- Constant from the source: `N_OFFSET = 6`. -/
def N_OFFSET : Nat := 6

/-- Constant from `mod_instance_def.rs` (fixed per the spec): `N_WORDS = 4`. -/
def N_WORDS : Nat := 4

/-- A relocatable address: a `(segment_index, offset)` pair.  Offsets are
`Nat`; offset-overflow paths of `usize` are not modelled. -/
structure Relocatable where
  segmentIndex : Int
  offset : Nat
deriving DecidableEq, Repr

instance : Inhabited Relocatable := ⟨⟨0, 0⟩⟩

/-- Pointer arithmetic on relocatable addresses: addition acts on the offset. -/
instance : HAdd Relocatable Nat Relocatable := ⟨fun r n => ⟨r.segmentIndex, r.offset + n⟩⟩

theorem Relocatable.add_def (r : Relocatable) (n : Nat) :
    r + n = ⟨r.segmentIndex, r.offset + n⟩ := rfl

theorem Relocatable.add_add (r : Relocatable) (a b : Nat) :
    (r + a) + b = r + (a + b) := by
  simp [Relocatable.add_def, Nat.add_assoc]

theorem Relocatable.add_right_inj (r : Relocatable) (a b : Nat) :
    r + a = r + b ↔ a = b := by
  constructor
  · intro h
    have := congrArg Relocatable.offset h
    simpa [Relocatable.add_def] using this
  · intro h; rw [h]

/-- A memory cell value: an integer (field element, modelled as `Nat`)
or a relocatable address. -/
inductive MaybeRelocatable where
  | int (v : Nat)
  | rel (r : Relocatable)
deriving DecidableEq, Repr

/-- Modelled from the spec: the hosting VM's `Memory` is an external
collaborator (not under the sources); the spec requires `get` and
`insert_as_accessed(addr, value)` ("writes and marks touched").  We model it
as an association list where the most recent write wins. -/
def Memory : Type := List (Relocatable × MaybeRelocatable)

instance : Inhabited Memory := ⟨([] : List (Relocatable × MaybeRelocatable))⟩

/-- Reads a memory cell; `none` means the cell is absent. -/
def Memory.get : Memory → Relocatable → Option MaybeRelocatable
  | [], _ => none
  | (a, v) :: rest, b => if a = b then some v else Memory.get rest b

/-- Modelled from the spec: `insert_as_accessed` writes a cell (the access
marking has no observable effect in this model). -/
def Memory.insertAsAccessed (m : Memory) (a : Relocatable) (v : MaybeRelocatable) : Memory :=
  (a, v) :: m

theorem Memory.get_insert (m : Memory) (a b : Relocatable) (v : MaybeRelocatable) :
    (m.insertAsAccessed a v).get b = if a = b then some v else m.get b := rfl

instance : DecidableEq Memory := fun a b =>
  inferInstanceAs (Decidable (@Eq (List (Relocatable × MaybeRelocatable)) a b))

/-- The payload of a `ModBuiltinSecurityCheck` error.  Rust formats it as a
string; we keep the reported fields structurally. -/
inductive SecCheckData where
  | pValuesMismatch (i : Nat) (cur prev : Nat)
  | valuesPtrMismatch (cur prev : Relocatable)
  | offsetsPtrMismatch (cur prev : Relocatable) (batchSize : Nat)
  | nMismatch (cur prev batchSize : Nat)
  | tripleFailed (inst indexInBatch : Nat) (p a b c : Nat)
  | prevNNotBatchSize (prevN batchSize : Nat)
deriving DecidableEq, Repr

/-- The error taxonomy of the runner.  `RunnerError`, the `MemoryError`s and
`MathError`s it wraps, and the two reachable Rust panics are flattened into
one type. -/
inductive RunnerError where
  | ExpectedInteger (addr : Relocatable)
  | ExpectedRelocatable (addr : Relocatable)
  | UnknownMemoryCell (addr : Relocatable)
  | WordExceedsModBuiltinWordBitLen (addr : Relocatable) (bitLen : Nat) (word : Nat)
  | WriteNWordsValueNotZero (name : String)
  | ModBuiltinNLessThanOne (name : String) (n : Nat)
  | ModBuiltinMissingValue (name : String) (addr : Relocatable)
  | FillMemoryNoBuiltinSet
  | ModBuiltinsMismatchedInstanceDef
  | FillMemoryMaxExceeded (name : String) (max : Nat)
  | FillMemoryCoudNotFillTable (addModIndex mulModIndex : Nat)
  | SafeDivFail (x y : Nat)
  | DividedByZero
  | PanicSubUnderflow
  | PanicModZero
  | ModBuiltinSecurityCheck (name : String) (data : SecCheckData)
deriving DecidableEq, Repr

/-- `ModBuiltinType` from the source. -/
inductive ModBuiltinType where
  | Mul
  | Add
deriving DecidableEq, Repr

/-- `Operation` from the source. -/
inductive Operation where
  | Mul
  | Add
  | Sub
  | DivMod (p : Nat)
deriving DecidableEq, Repr

/-- The runner state relevant to the verified core: `builtin_type`,
`word_bit_len` and `batch_size` from `ModInstanceDef`, and `base`.
`shift` and `shift_powers` are recomputed (`shift = 2^word_bit_len`,
`shift_powers[i] = shift^i`, exactly as `ModBuiltinRunner::new` sets them). -/
structure ModBuiltinRunner where
  builtinType : ModBuiltinType
  wordBitLen : Nat
  batchSize : Nat
  base : Int
deriving DecidableEq, Repr

instance : Inhabited ModBuiltinRunner := ⟨⟨.Mul, 0, 0, 0⟩⟩

/-- `shift = 2^word_bit_len` as precomputed by `ModBuiltinRunner::new`. -/
def ModBuiltinRunner.shift (r : ModBuiltinRunner) : Nat := 2 ^ r.wordBitLen

theorem ModBuiltinRunner.shift_pos (r : ModBuiltinRunner) : 0 < r.shift :=
  Nat.pos_pow_of_pos _ (by decide)

/-- The builtin's name, as used in diagnostics. -/
def ModBuiltinRunner.name (r : ModBuiltinRunner) : String :=
  match r.builtinType with
  | .Mul => "mul_mod_builtin"
  | .Add => "add_mod_builtin"

/-- The `Inputs` struct from the source: the decoded 7-cell instance header. -/
structure Inputs where
  p : Nat
  pValues : List Nat
  valuesPtr : Relocatable
  offsetsPtr : Relocatable
  n : Nat
deriving DecidableEq, Repr

/-- `Inputs::default()`: zero modulus, zero limbs, zero pointers, `n = 0`. -/
instance : Inhabited Inputs := ⟨⟨0, List.replicate N_WORDS 0, default, default, 0⟩⟩

/-- `memory.get_integer`: the cell must hold an integer. -/
def Memory.getInteger (m : Memory) (a : Relocatable) : Except RunnerError Nat :=
  match m.get a with
  | some (.int w) => .ok w
  | some (.rel _) => .error (.ExpectedInteger a)
  | none => .error (.UnknownMemoryCell a)

/-- `memory.get_relocatable`: the cell must hold a relocatable. -/
def Memory.getRelocatable (m : Memory) (a : Relocatable) : Except RunnerError Relocatable :=
  match m.get a with
  | some (.rel r) => .ok r
  | some (.int _) => .error (.ExpectedRelocatable a)
  | none => .error (.UnknownMemoryCell a)

/-- `memory.get_usize`: an integer cell read as a count (usize bounds are not
modelled; counts are `Nat`). -/
def Memory.getUsize (m : Memory) (a : Relocatable) : Except RunnerError Nat :=
  m.getInteger a

/-- Modelled from the spec: `safe_div_usize` from `math_utils` is not under
the sources; per the spec the division "must divide exactly, else
`SafeDivFail`". -/
def safe_div_usize (x y : Nat) : Except RunnerError Nat :=
  if y ≠ 0 ∧ y ∣ x then .ok (x / y) else .error (.SafeDivFail x y)

/-- Modelled from the spec: `div_mod_unsigned` from `math_utils` is not under
the sources; per the spec it returns "modular inverse times `lhs`"
reduced mod `p`, and fails (`MathError`, propagated) when the inverse does
not exist.  The inverse of `rhs` is computed from the extended gcd. -/
def div_mod_unsigned (lhs rhs p : Nat) : Except RunnerError Nat :=
  if p ≠ 0 ∧ Nat.gcd rhs p = 1 then
    .ok ((lhs * (((Nat.gcdA rhs p) % (p : Int)).toNat)) % p)
  else
    .error .DividedByZero

/-- `apply_op` from the source.  `BigUint` subtraction panics on underflow in
Rust; the panic is modelled as the error `PanicSubUnderflow`. -/
def apply_op (lhs rhs : Nat) (op : Operation) : Except RunnerError Nat :=
  match op with
  | .Mul => .ok (lhs * rhs)
  | .Add => .ok (lhs + rhs)
  | .Sub => if rhs ≤ lhs then .ok (lhs - rhs) else .error .PanicSubUnderflow
  | .DivMod p => div_mod_unsigned lhs rhs p

/-- `BigUint::mod_floor`: Rust panics on a zero modulus; the panic is modelled
as the error `PanicModZero`. -/
def mod_floor (a p : Nat) : Except RunnerError Nat :=
  if p = 0 then .error .PanicModZero else .ok (a % p)

/-- The loop body of `read_n_words_value`: reads cells `addr+i` for
`i ∈ [i, N_WORDS)`, accumulating the limbs and the packed value. -/
def readNWordsGo (r : ModBuiltinRunner) (m : Memory) (addr : Relocatable) :
    Nat → List Nat → Nat → Except RunnerError (List Nat × Option Nat)
  | i, words, value =>
    if h : i < N_WORDS then
      match m.get (addr + i) with
      | none => .ok (words, none)
      | some (.rel _) => .error (.ExpectedInteger (addr + i))
      | some (.int w) =>
        if r.shift ≤ w then
          .error (.WordExceedsModBuiltinWordBitLen (addr + i) r.wordBitLen w)
        else
          readNWordsGo r m addr (i + 1) (words.set i w) (value + w * r.shift ^ i)
    else .ok (words, some value)
termination_by i _ _ => N_WORDS - i

/-- `read_n_words_value` from the source: reads `N_WORDS` limbs starting at
`addr`; returns the limbs and, when all were present, the packed value. -/
def read_n_words_value (r : ModBuiltinRunner) (m : Memory) (addr : Relocatable) :
    Except RunnerError (List Nat × Option Nat) :=
  readNWordsGo r m addr 0 (List.replicate N_WORDS 0) 0

/-- The loop body of `write_n_words_value`: writes `value mod shift` at
`addr+i` and divides, for `i ∈ [i, N_WORDS)`.  Returns the memory and the
remaining value. -/
def writeNWordsGo (r : ModBuiltinRunner) (addr : Relocatable) :
    Nat → Nat → Memory → Memory × Nat
  | i, value, m =>
    if h : i < N_WORDS then
      writeNWordsGo r addr (i + 1) (value / r.shift)
        (m.insertAsAccessed (addr + i) (.int (value % r.shift)))
    else (m, value)
termination_by i _ _ => N_WORDS - i

/-- `write_n_words_value` from the source.  The writes happen before the
final zero check, so the resulting memory is returned even on error. -/
def write_n_words_value (r : ModBuiltinRunner) (m : Memory) (addr : Relocatable)
    (value : Nat) : Memory × Option RunnerError :=
  let res := writeNWordsGo r addr 0 value m
  (res.1, if res.2 = 0 then none else some (.WriteNWordsValueNotZero r.name))

/-- `write_n_words_value` as the callers see it: the memory on success, the
error otherwise. -/
def writeNWordsE (r : ModBuiltinRunner) (m : Memory) (addr : Relocatable)
    (value : Nat) : Except RunnerError Memory :=
  match write_n_words_value r m addr value with
  | (m', none) => .ok m'
  | (_, some e) => .error e

/-- `read_inputs` from the source: decodes the 7-cell instance header at
`addr`. -/
def read_inputs (r : ModBuiltinRunner) (m : Memory) (addr : Relocatable) :
    Except RunnerError Inputs := do
  let valuesPtr ← m.getRelocatable (addr + VALUES_PTR_OFFSET)
  let offsetsPtr ← m.getRelocatable (addr + OFFSETS_PTR_OFFSET)
  let n ← m.getUsize (addr + N_OFFSET)
  if n < 1 then
    .error (.ModBuiltinNLessThanOne r.name n)
  else
    let pv ← read_n_words_value r m addr
    match pv.2 with
    | none => .error (.ModBuiltinMissingValue r.name (addr + N_WORDS))
    | some p => .ok ⟨p, pv.1, valuesPtr, offsetsPtr, n⟩

/-- The `compute_value` closure of `read_memory_vars`. -/
def computeValue (r : ModBuiltinRunner) (m : Memory) (valuesPtr offsetsPtr : Relocatable)
    (indexInBatch : Nat) (index : Nat) : Except RunnerError Nat := do
  let offset ← m.getUsize (offsetsPtr + (index + 3 * indexInBatch))
  let valueAddr := valuesPtr + offset
  let v ← read_n_words_value r m valueAddr
  match v.2 with
  | none => .error (.ModBuiltinMissingValue r.name (valueAddr + N_WORDS))
  | some value => .ok value

/-- `read_memory_vars` from the source: fetches the `(a, b, c)` triple. -/
def read_memory_vars (r : ModBuiltinRunner) (m : Memory) (valuesPtr offsetsPtr : Relocatable)
    (indexInBatch : Nat) : Except RunnerError (Nat × Nat × Nat) := do
  let a ← computeValue r m valuesPtr offsetsPtr indexInBatch 0
  let b ← computeValue r m valuesPtr offsetsPtr indexInBatch 1
  let c ← computeValue r m valuesPtr offsetsPtr indexInBatch 2
  .ok (a, b, c)

/-- The inner `for i in 0..N_WORDS` of `fill_inputs`: writes the `p` limbs of
the first instance at `instancePtr + i`. -/
def writePValuesGo (pValues : List Nat) (instancePtr : Relocatable) :
    Nat → Memory → Memory
  | i, m =>
    if h : i < N_WORDS then
      writePValuesGo pValues instancePtr (i + 1)
        (m.insertAsAccessed (instancePtr + i) (.int (pValues.getD i 0)))
    else m
termination_by i _ => N_WORDS - i

/-- One iteration of the `for instance in 1..n_instances` loop of
`fill_inputs`: writes the 7-cell header of sub-instance `inst`. -/
def writeInstanceHeader (r : ModBuiltinRunner) (builtinPtr : Relocatable) (inputs : Inputs)
    (inst : Nat) (m : Memory) : Memory :=
  (((writePValuesGo inputs.pValues (builtinPtr + (inst * INPUT_CELLS)) 0 m).insertAsAccessed
      (builtinPtr + (inst * INPUT_CELLS) + VALUES_PTR_OFFSET)
      (.rel inputs.valuesPtr)).insertAsAccessed
      (builtinPtr + (inst * INPUT_CELLS) + OFFSETS_PTR_OFFSET)
      (.rel (inputs.offsetsPtr + 3 * inst * r.batchSize))).insertAsAccessed
      (builtinPtr + (inst * INPUT_CELLS) + N_OFFSET)
      (.int (inputs.n - inst * r.batchSize))

/-- The `for instance in 1..n_instances` loop of `fill_inputs`. -/
def fillInputsGo (r : ModBuiltinRunner) (builtinPtr : Relocatable) (inputs : Inputs) :
    Nat → Nat → Memory → Memory
  | inst, nInstances, m =>
    if h : inst < nInstances then
      fillInputsGo r builtinPtr inputs (inst + 1) nInstances
        (writeInstanceHeader r builtinPtr inputs inst m)
    else m
termination_by inst nInstances _ => nInstances - inst

/-- `fill_inputs` from the source: checks `FILL_MEMORY_MAX`, divides `n` by
`batch_size` exactly, and replicates the first instance's header across
sub-instances `1..n_instances`. -/
def fill_inputs (r : ModBuiltinRunner) (m : Memory) (builtinPtr : Relocatable)
    (inputs : Inputs) : Except RunnerError Memory :=
  if FILL_MEMORY_MAX < inputs.n then
    .error (.FillMemoryMaxExceeded r.name FILL_MEMORY_MAX)
  else do
    let nInstances ← safe_div_usize inputs.n r.batchSize
    .ok (fillInputsGo r builtinPtr inputs 1 nInstances m)

/-- The inner `for copy_i in 0..n_copies` loop of `fill_offsets`: writes the
cell value `v` (read at `offsets_ptr + i`) at `offsets_ptr + 3*(index+copy_i)+i`. -/
def fillOffsetsCopyGo (offsetsPtr : Relocatable) (index : Nat) (i : Nat)
    (v : MaybeRelocatable) : Nat → Nat → Memory → Memory
  | copyI, nCopies, m =>
    if h : copyI < nCopies then
      fillOffsetsCopyGo offsetsPtr index i v (copyI + 1) nCopies
        (m.insertAsAccessed (offsetsPtr + (3 * (index + copyI) + i)) v)
    else m
termination_by copyI nCopies _ => nCopies - copyI

/-- One iteration of the outer `for i in 0..3` loop of `fill_offsets`. -/
def fillOffsetsStep (m : Memory) (offsetsPtr : Relocatable) (index nCopies i : Nat) :
    Except RunnerError Memory :=
  match m.get (offsetsPtr + i) with
  | none => .error (.UnknownMemoryCell (offsetsPtr + i))
  | some v => .ok (fillOffsetsCopyGo offsetsPtr index i v 0 nCopies m)

/-- `fill_offsets` from the source: copies the first three offsets to the end
of the offsets table, `n_copies` times. -/
def fill_offsets (m : Memory) (offsetsPtr : Relocatable) (index nCopies : Nat) :
    Except RunnerError Memory :=
  if nCopies = 0 then .ok m
  else do
    let m0 ← fillOffsetsStep m offsetsPtr index nCopies 0
    let m1 ← fillOffsetsStep m0 offsetsPtr index nCopies 1
    fillOffsetsStep m1 offsetsPtr index nCopies 2

/-- `fill_value` from the source: reads the triple's three word windows and,
when exactly one is missing, deduces and writes it; returns `true` also when
all three are already known. -/
def fill_value (r : ModBuiltinRunner) (m : Memory) (inputs : Inputs) (index : Nat)
    (op invOp : Operation) : Except RunnerError (Memory × Bool) := do
  let o0 ← m.getInteger (inputs.offsetsPtr + (3 * index + 0))
  let addr0 := inputs.valuesPtr + o0
  let v0 ← read_n_words_value r m addr0
  let o1 ← m.getInteger (inputs.offsetsPtr + (3 * index + 1))
  let addr1 := inputs.valuesPtr + o1
  let v1 ← read_n_words_value r m addr1
  let o2 ← m.getInteger (inputs.offsetsPtr + (3 * index + 2))
  let addr2 := inputs.valuesPtr + o2
  let v2 ← read_n_words_value r m addr2
  match v0.2, v1.2, v2.2 with
  | some a, some b, none => do
      let t ← apply_op a b op
      let value ← mod_floor t inputs.p
      let m' ← writeNWordsE r m addr2 value
      .ok (m', true)
  | some a, none, some c => do
      let t ← apply_op c a invOp
      let value ← mod_floor t inputs.p
      let m' ← writeNWordsE r m addr1 value
      .ok (m', true)
  | none, some b, some c => do
      let t ← apply_op c b invOp
      let value ← mod_floor t inputs.p
      let m' ← writeNWordsE r m addr0 value
      .ok (m', true)
  | some _, some _, some _ => .ok (m, true)
  | _, _, _ => .ok (m, false)

/-- The `while` loop of `fill_memory`, instrumented with the number of
successful cursor advances (the second component of the result).  One
iteration tries the add side first, then the mul side, and otherwise fails
with `FillMemoryCoudNotFillTable`.  `fill_value` leaves the memory unchanged
when it returns `false`. -/
def fillMemoryLoop (r : ModBuiltinRunner) (addInputs mulInputs : Inputs)
    (addN mulN : Nat) (divOp : Operation) :
    Memory → Nat → Nat → Except RunnerError (Memory × Nat)
  | m, addIdx, mulIdx =>
    if hrun : addIdx < addN ∨ mulIdx < mulN then
      match (if addIdx < addN then fill_value r m addInputs addIdx .Add .Sub
                    else .ok (m, false)) with
      | .error e => .error e
      | .ok res =>
        if h1 : addIdx < addN ∧ res.2 = true then
          match fillMemoryLoop r addInputs mulInputs addN mulN divOp res.1 (addIdx + 1) mulIdx with
          | .error e => .error e
          | .ok res' => .ok (res'.1, res'.2 + 1)
        else
          match (if mulIdx < mulN then fill_value r res.1 mulInputs mulIdx .Mul divOp
                        else .ok (res.1, false)) with
          | .error e => .error e
          | .ok res2 =>
            if h2 : mulIdx < mulN ∧ res2.2 = true then
              match fillMemoryLoop r addInputs mulInputs addN mulN divOp res2.1 addIdx (mulIdx + 1) with
              | .error e => .error e
              | .ok res' => .ok (res'.1, res'.2 + 1)
            else
              .error (.FillMemoryCoudNotFillTable addIdx mulIdx)
    else .ok (m, 0)
termination_by m addIdx mulIdx => (addN - addIdx) + (mulN - mulIdx)
decreasing_by
  · have := h1.1
    omega
  · have := h2.1
    omega

/-- The body of `fill_memory` after its two guards: reads and replicates each
present builtin's inputs, pads its offsets, then runs the deduction loop. -/
def fillMemoryCore (m : Memory)
    (addMod : Option (Relocatable × ModBuiltinRunner × Nat))
    (mulMod : Option (Relocatable × ModBuiltinRunner × Nat)) :
    Except RunnerError Memory := do
  let (m, addInputs, addN) ←
    match addMod with
    | some (addModAddr, addModRunner, addModIndex) => do
        let addInputs ← read_inputs addModRunner m addModAddr
        let m ← fill_inputs addModRunner m addModAddr addInputs
        let m ← fill_offsets m addInputs.offsetsPtr addModIndex
          (addInputs.n - addModIndex)
        Except.ok (m, addInputs, addModIndex)
    | none => Except.ok (m, default, 0)
  let (m, mulInputs, mulN) ←
    match mulMod with
    | some (mulModAddr, mulModRunner, mulModIndex) => do
        let mulInputs ← read_inputs mulModRunner m mulModAddr
        let m ← fill_inputs mulModRunner m mulModAddr mulInputs
        let m ← fill_offsets m mulInputs.offsetsPtr mulModIndex
          (mulInputs.n - mulModIndex)
        Except.ok (m, mulInputs, mulModIndex)
    | none => Except.ok (m, default, 0)
  let modRunner :=
    match addMod with
    | some (_, addModRunner, _) => addModRunner
    | none => (mulMod.map (fun t => t.2.1)).getD default
  let divOperation := Operation.DivMod mulInputs.p
  let res ← fillMemoryLoop modRunner addInputs mulInputs addN mulN divOperation m 0 0
  .ok res.1

/-- `fill_memory` from the source: guards, per-builtin header replication and
offset padding, then the interleaved deduction loop. -/
def fill_memory (m : Memory)
    (addMod : Option (Relocatable × ModBuiltinRunner × Nat))
    (mulMod : Option (Relocatable × ModBuiltinRunner × Nat)) :
    Except RunnerError Memory :=
  if addMod.isNone ∧ mulMod.isNone then
    .error .FillMemoryNoBuiltinSet
  else
    match addMod, mulMod with
    | some am, some mm =>
      if am.2.1.wordBitLen ≠ mm.2.1.wordBitLen then
        .error .ModBuiltinsMismatchedInstanceDef
      else fillMemoryCore m addMod mulMod
    | _, _ => fillMemoryCore m addMod mulMod

/-- The `for i in 0..N_WORDS` comparison of `p` limbs in
`run_additional_security_checks`. -/
def checkPValuesGo (name : String) (cur prev : List Nat) : Nat → Except RunnerError Unit
  | i =>
    if h : i < N_WORDS then
      if cur.getD i 0 ≠ prev.getD i 0 then
        .error (.ModBuiltinSecurityCheck name (.pValuesMismatch i (cur.getD i 0) (prev.getD i 0)))
      else checkPValuesGo name cur prev (i + 1)
    else .ok ()
termination_by i => N_WORDS - i

/-- The cross-instance header checks of `run_additional_security_checks`,
performed when `instance ≠ 0` and `prev.n > batch_size`. -/
def checkHeaders (r : ModBuiltinRunner) (prev inputs : Inputs) : Except RunnerError Unit := do
  checkPValuesGo r.name inputs.pValues prev.pValues 0
  if inputs.valuesPtr ≠ prev.valuesPtr then
    .error (.ModBuiltinSecurityCheck r.name (.valuesPtrMismatch inputs.valuesPtr prev.valuesPtr))
  else if inputs.offsetsPtr ≠ prev.offsetsPtr + (3 * r.batchSize) then
    .error (.ModBuiltinSecurityCheck r.name
      (.offsetsPtrMismatch inputs.offsetsPtr prev.offsetsPtr r.batchSize))
  else if inputs.n ≠ prev.n - r.batchSize then
    .error (.ModBuiltinSecurityCheck r.name (.nMismatch inputs.n prev.n r.batchSize))
  else .ok ()

/-- The operation selected by `builtin_type` in
`run_additional_security_checks`. -/
def ModBuiltinRunner.securityOp (r : ModBuiltinRunner) : Operation :=
  match r.builtinType with
  | .Add => .Add
  | .Mul => .Mul

/-- The `for index_in_batch in 0..batch_size` loop of
`run_additional_security_checks`: reads each triple and verifies
`a op b ≡ c (mod p)`. -/
def secBatchGo (r : ModBuiltinRunner) (m : Memory) (inputs : Inputs) (inst : Nat) :
    Nat → Except RunnerError Unit
  | idx =>
    if h : idx < r.batchSize then do
      let abc ← read_memory_vars r m inputs.valuesPtr inputs.offsetsPtr idx
      let t ← apply_op abc.1 abc.2.1 r.securityOp
      let aOpB ← mod_floor t inputs.p
      let cMod ← mod_floor abc.2.2 inputs.p
      if aOpB ≠ cMod then
        .error (.ModBuiltinSecurityCheck r.name
          (.tripleFailed inst idx inputs.p abc.1 abc.2.1 abc.2.2))
      else secBatchGo r m inputs inst (idx + 1)
    else .ok ()
termination_by idx => r.batchSize - idx

/-- The `for instance in 0..n_instances` loop of
`run_additional_security_checks`; returns the final `prev_inputs`. -/
def secInstGo (r : ModBuiltinRunner) (m : Memory) :
    Nat → Nat → Inputs → Except RunnerError Inputs
  | inst, nInstances, prev =>
    if h : inst < nInstances then do
      let inputs ← read_inputs r m ⟨r.base, inst * INPUT_CELLS⟩
      if inst ≠ 0 ∧ r.batchSize < prev.n then checkHeaders r prev inputs else Except.ok ()
      secBatchGo r m inputs inst 0
      secInstGo r m (inst + 1) nInstances inputs
    else .ok prev
termination_by inst nInstances _ => nInstances - inst

/-- `run_additional_security_checks` from the source.  The VM's segment size
for the builtin's segment is passed in (`get_segment_used_size` is part of
the out-of-scope segment manager). -/
def run_additional_security_checks (r : ModBuiltinRunner) (m : Memory) (segSize : Nat) :
    Except RunnerError Unit := do
  let nInstances := (segSize + (INPUT_CELLS - 1)) / INPUT_CELLS
  let prev ← secInstGo r m 0 nInstances default
  if nInstances ≠ 0 ∧ prev.n ≠ r.batchSize then
    .error (.ModBuiltinSecurityCheck r.name (.prevNNotBatchSize prev.n r.batchSize))
  else .ok ()

/-! Helper lemmas about the codec loops. -/

instance {ε α : Type} [DecidableEq ε] [DecidableEq α] : DecidableEq (Except ε α) := fun x y =>
  match x, y with
  | .ok a, .ok b =>
    if h : a = b then .isTrue (by rw [h]) else .isFalse (fun hc => h (Except.ok.inj hc))
  | .error a, .error b =>
    if h : a = b then .isTrue (by rw [h]) else .isFalse (fun hc => h (Except.error.inj hc))
  | .ok _, .error _ => .isFalse (fun hc => Except.noConfusion hc)
  | .error _, .ok _ => .isFalse (fun hc => Except.noConfusion hc)

theorem bind_ok_eq {ε α β : Type} (a : α) (f : α → Except ε β) :
    (Except.ok a : Except ε α) >>= f = f a := rfl

theorem bind_error_eq {ε α β : Type} (e : ε) (f : α → Except ε β) :
    (Except.error e : Except ε α) >>= f = Except.error e := rfl

theorem writeNWordsGo_step (r : ModBuiltinRunner) (addr : Relocatable) (i v : Nat)
    (m : Memory) (h : i < N_WORDS) :
    writeNWordsGo r addr i v m =
      writeNWordsGo r addr (i + 1) (v / r.shift)
        (m.insertAsAccessed (addr + i) (.int (v % r.shift))) := by
  rw [writeNWordsGo]
  simp [h]

theorem writeNWordsGo_done (r : ModBuiltinRunner) (addr : Relocatable) (i v : Nat)
    (m : Memory) (h : ¬ i < N_WORDS) :
    writeNWordsGo r addr i v m = (m, v) := by
  rw [writeNWordsGo]
  simp [h]

theorem writeNWordsGo_unfold (r : ModBuiltinRunner) (addr : Relocatable) (v : Nat)
    (m : Memory) :
    writeNWordsGo r addr 0 v m =
      (((((m.insertAsAccessed (addr + 0) (.int (v / r.shift ^ 0 % r.shift))).insertAsAccessed
          (addr + 1) (.int (v / r.shift ^ 1 % r.shift))).insertAsAccessed
          (addr + 2) (.int (v / r.shift ^ 2 % r.shift))).insertAsAccessed
          (addr + 3) (.int (v / r.shift ^ 3 % r.shift))),
        v / r.shift ^ 4) := by
  have d1 : v / r.shift / r.shift = v / r.shift ^ 2 := by
    rw [Nat.div_div_eq_div_mul]; ring_nf
  have d2 : v / r.shift ^ 2 / r.shift = v / r.shift ^ 3 := by
    rw [Nat.div_div_eq_div_mul]; ring_nf
  have d3 : v / r.shift ^ 3 / r.shift = v / r.shift ^ 4 := by
    rw [Nat.div_div_eq_div_mul]; ring_nf
  rw [writeNWordsGo_step r addr 0 v m (by decide),
      writeNWordsGo_step r addr 1 _ _ (by decide),
      writeNWordsGo_step r addr 2 _ _ (by decide),
      writeNWordsGo_step r addr 3 _ _ (by decide),
      writeNWordsGo_done r addr 4 _ _ (by decide)]
  rw [d1, d2, d3]
  simp

theorem readNWordsGo_none (r : ModBuiltinRunner) (m : Memory) (addr : Relocatable)
    (i : Nat) (words : List Nat) (value : Nat) (h : i < N_WORDS)
    (hget : m.get (addr + i) = none) :
    readNWordsGo r m addr i words value = .ok (words, none) := by
  rw [readNWordsGo]
  simp [h, hget]

theorem readNWordsGo_rel (r : ModBuiltinRunner) (m : Memory) (addr : Relocatable)
    (i : Nat) (words : List Nat) (value : Nat) (h : i < N_WORDS) (rv : Relocatable)
    (hget : m.get (addr + i) = some (.rel rv)) :
    readNWordsGo r m addr i words value = .error (.ExpectedInteger (addr + i)) := by
  rw [readNWordsGo]
  simp [h, hget]

theorem readNWordsGo_big (r : ModBuiltinRunner) (m : Memory) (addr : Relocatable)
    (i : Nat) (words : List Nat) (value : Nat) (h : i < N_WORDS) (w : Nat)
    (hget : m.get (addr + i) = some (.int w)) (hw : r.shift ≤ w) :
    readNWordsGo r m addr i words value =
      .error (.WordExceedsModBuiltinWordBitLen (addr + i) r.wordBitLen w) := by
  rw [readNWordsGo]
  simp [h, hget, hw]

theorem readNWordsGo_int (r : ModBuiltinRunner) (m : Memory) (addr : Relocatable)
    (i : Nat) (words : List Nat) (value : Nat) (h : i < N_WORDS) (w : Nat)
    (hget : m.get (addr + i) = some (.int w)) (hw : w < r.shift) :
    readNWordsGo r m addr i words value =
      readNWordsGo r m addr (i + 1) (words.set i w) (value + w * r.shift ^ i) := by
  rw [readNWordsGo]
  simp [h, hget, Nat.not_le.mpr hw]

theorem readNWordsGo_done (r : ModBuiltinRunner) (m : Memory) (addr : Relocatable)
    (i : Nat) (words : List Nat) (value : Nat) (h : ¬ i < N_WORDS) :
    readNWordsGo r m addr i words value = .ok (words, some value) := by
  rw [readNWordsGo]
  simp [h]

/-- Base-`s` digit reconstruction: the four digits of `v < s^4` sum back to `v`. -/
theorem digit_sum_eq (s v : Nat) (hv : v < s ^ 4) :
    v / s ^ 0 % s * s ^ 0 + v / s ^ 1 % s * s ^ 1 + v / s ^ 2 % s * s ^ 2 +
      v / s ^ 3 % s * s ^ 3 = v := by
  have d1 : v / s / s = v / s ^ 2 := by rw [Nat.div_div_eq_div_mul]; ring_nf
  have d2 : v / s ^ 2 / s = v / s ^ 3 := by rw [Nat.div_div_eq_div_mul]; ring_nf
  have d3 : v / s ^ 3 / s = v / s ^ 4 := by rw [Nat.div_div_eq_div_mul]; ring_nf
  have h4 : v / s ^ 4 = 0 := Nat.div_eq_of_lt hv
  have m0 := Nat.div_add_mod v s
  have m1 := Nat.div_add_mod (v / s) s
  have m2 := Nat.div_add_mod (v / s ^ 2) s
  have m3 := Nat.div_add_mod (v / s ^ 3) s
  rw [d1] at m1
  rw [d2] at m2
  rw [d3, h4] at m3
  have e1 : v / s ^ 1 = v / s := by ring_nf
  have e0 : v / s ^ 0 = v := by simp
  rw [e0, e1]
  zify at m0 m1 m2 m3 ⊢
  linear_combination m0 + (s : Int) * m1 + (s : Int) ^ 2 * m2 + (s : Int) ^ 3 * m3

/-- The digits of `v` below position 4 agree with those of `v % s^4`. -/
theorem digit_mod_pow_eq (s v i : Nat) (hi : i < 4) :
    v % s ^ 4 / s ^ i % s = v / s ^ i % s := by
  have hsplit : s ^ 4 = s ^ i * s ^ (4 - i) := by
    rw [← pow_add]
    congr 1
    omega
  have hdvd : s ∣ s ^ (4 - i) := dvd_pow_self s (by omega)
  rw [hsplit, Nat.mod_mul_right_div_self, Nat.mod_mod_of_dvd _ hdvd]

/-- The memory produced by `write_n_words_value` holds the base-`shift`
digits of the value at `addr + i` for `i < N_WORDS`. -/
theorem write_n_words_get (r : ModBuiltinRunner) (m : Memory) (addr : Relocatable)
    (v : Nat) (i : Nat) (hi : i < N_WORDS) :
    (write_n_words_value r m addr v).1.get (addr + i) =
      some (.int (v / r.shift ^ i % r.shift)) := by
  unfold write_n_words_value
  rw [writeNWordsGo_unfold]
  simp only [Memory.get_insert, Relocatable.add_right_inj]
  have h4 : i < 4 := hi
  interval_cases i <;> simp

/-- Cells other than `addr+0..addr+3` are untouched by `write_n_words_value`. -/
theorem write_n_words_get_frame (r : ModBuiltinRunner) (m : Memory) (addr : Relocatable)
    (v : Nat) (b : Relocatable) (hb : ∀ i, i < N_WORDS → b ≠ addr + i) :
    (write_n_words_value r m addr v).1.get b = m.get b := by
  unfold write_n_words_value
  rw [writeNWordsGo_unfold]
  simp only [Memory.get_insert]
  rw [if_neg (fun he => hb 3 (by decide) he.symm),
      if_neg (fun he => hb 2 (by decide) he.symm),
      if_neg (fun he => hb 1 (by decide) he.symm),
      if_neg (fun he => hb 0 (by decide) he.symm)]

/-- `write_n_words_value` reports `WriteNWordsValueNotZero` exactly when the
value does not fit in `N_WORDS` words. -/
theorem write_n_words_err (r : ModBuiltinRunner) (m : Memory) (addr : Relocatable)
    (v : Nat) :
    (write_n_words_value r m addr v).2 =
      (if v < r.shift ^ 4 then none else some (.WriteNWordsValueNotZero r.name)) := by
  unfold write_n_words_value
  rw [writeNWordsGo_unfold]
  have hpos : 0 < r.shift ^ 4 := Nat.pos_pow_of_pos _ r.shift_pos
  by_cases h : v < r.shift ^ 4
  · simp [Nat.div_eq_of_lt h, h]
  · have : v / r.shift ^ 4 ≠ 0 := by
      intro h0
      have := (Nat.div_eq_zero_iff hpos).mp h0
      omega
    simp [this, h]

/-- Claim C9: `write_n_words_value` is not atomic on error.  For every value
`v ≥ shift^N_WORDS` it returns `WriteNWordsValueNotZero`, having already
written the `N_WORDS` limbs of `v mod shift^N_WORDS` to `addr..addr+N_WORDS-1`;
those writes are in the memory it returns. -/
theorem write_n_words_partial_writes_on_error (r : ModBuiltinRunner) (m : Memory)
    (addr : Relocatable) (v : Nat) (hv : r.shift ^ N_WORDS ≤ v) :
    (write_n_words_value r m addr v).2 = some (.WriteNWordsValueNotZero r.name) ∧
    ∀ i, i < N_WORDS →
      (write_n_words_value r m addr v).1.get (addr + i) =
        some (.int (v % r.shift ^ N_WORDS / r.shift ^ i % r.shift)) := by
  have hv4 : r.shift ^ 4 ≤ v := hv
  constructor
  · rw [write_n_words_err]
    simp [Nat.not_lt.mpr hv4]
  · intro i hi
    rw [write_n_words_get r m addr v i hi]
    have h4 : i < 4 := hi
    rw [show N_WORDS = 4 from rfl, digit_mod_pow_eq r.shift v i h4]

theorem write_n_words_partial_writes_on_error_witness :
    (write_n_words_value ⟨.Add, 1, 1, 0⟩ [] ⟨0, 0⟩ 16).2 =
      some (.WriteNWordsValueNotZero "add_mod_builtin") ∧
    (write_n_words_value ⟨.Add, 1, 1, 0⟩ [] ⟨0, 0⟩ 16).1.get
        ((⟨0, 0⟩ : Relocatable) + (0 : Nat)) = some (.int 0) := by
  have h := write_n_words_partial_writes_on_error ⟨.Add, 1, 1, 0⟩ [] ⟨0, 0⟩ 16 (by decide)
  exact ⟨h.1, (h.2 0 (by decide)).trans (by decide)⟩

/-- Claim C10: `read_inputs` places no lower bound on the modulus: when the
four `p`-limb cells hold zero, the pointer cells hold relocatables and the
count cell holds `n ≥ 1`, it returns `Ok` with `p = 0`. -/
theorem read_inputs_allows_zero_modulus (r : ModBuiltinRunner) (m : Memory)
    (addr : Relocatable) (vp os : Relocatable) (n : Nat)
    (hp : ∀ i, i < N_WORDS → m.get (addr + i) = some (.int 0))
    (hvp : m.get (addr + VALUES_PTR_OFFSET) = some (.rel vp))
    (hos : m.get (addr + OFFSETS_PTR_OFFSET) = some (.rel os))
    (hn : m.get (addr + N_OFFSET) = some (.int n)) (hn1 : 1 ≤ n) :
    read_inputs r m addr = .ok ⟨0, List.replicate N_WORDS 0, vp, os, n⟩ := by
  have s0 := r.shift_pos
  have hrd : read_n_words_value r m addr = .ok (List.replicate N_WORDS 0, some 0) := by
    unfold read_n_words_value
    rw [readNWordsGo_int r m addr 0 _ _ (by decide) 0 (hp 0 (by decide)) s0,
        readNWordsGo_int r m addr 1 _ _ (by decide) 0 (hp 1 (by decide)) s0,
        readNWordsGo_int r m addr 2 _ _ (by decide) 0 (hp 2 (by decide)) s0,
        readNWordsGo_int r m addr 3 _ _ (by decide) 0 (hp 3 (by decide)) s0,
        readNWordsGo_done r m addr 4 _ _ (by decide)]
    simp [List.replicate, List.set]
  have hn0 : ¬ n = 0 := by omega
  simp [read_inputs, Memory.getRelocatable, Memory.getUsize, Memory.getInteger,
    hvp, hos, hn, hn0, hrd, bind_ok_eq]

theorem read_inputs_allows_zero_modulus_witness :
    read_inputs ⟨.Add, 3, 1, 0⟩
      [(⟨0, 0⟩, .int 0), (⟨0, 1⟩, .int 0), (⟨0, 2⟩, .int 0), (⟨0, 3⟩, .int 0),
       (⟨0, 4⟩, .rel ⟨1, 0⟩), (⟨0, 5⟩, .rel ⟨2, 0⟩), (⟨0, 6⟩, .int 3)] ⟨0, 0⟩ =
      .ok ⟨0, List.replicate N_WORDS 0, ⟨1, 0⟩, ⟨2, 0⟩, 3⟩ := by
  apply read_inputs_allows_zero_modulus
  · intro i hi
    have h4 : i < 4 := hi
    interval_cases i <;> decide
  · decide
  · decide
  · decide
  · decide

/-- Claim C3: codec round-trip.  For every `v < shift^N_WORDS`,
`write_n_words_value` succeeds, and `read_n_words_value` at the same address
returns `Some v` with exactly the four limbs that were written
(the base-`shift` digits of `v`). -/
theorem write_read_n_words_roundtrip (r : ModBuiltinRunner) (m : Memory)
    (addr : Relocatable) (v : Nat) (hv : v < r.shift ^ N_WORDS) :
    (write_n_words_value r m addr v).2 = none ∧
    read_n_words_value r (write_n_words_value r m addr v).1 addr =
      .ok ([v / r.shift ^ 0 % r.shift, v / r.shift ^ 1 % r.shift,
            v / r.shift ^ 2 % r.shift, v / r.shift ^ 3 % r.shift], some v) := by
  have hv4 : v < r.shift ^ 4 := hv
  have s0 := r.shift_pos
  constructor
  · rw [write_n_words_err]
    simp [hv4]
  · have hget : ∀ i, i < N_WORDS →
        (write_n_words_value r m addr v).1.get (addr + i) =
          some (.int (v / r.shift ^ i % r.shift)) :=
      fun i hi => write_n_words_get r m addr v i hi
    have hd : ∀ i, v / r.shift ^ i % r.shift < r.shift := fun i => Nat.mod_lt _ s0
    unfold read_n_words_value
    rw [readNWordsGo_int r _ addr 0 _ _ (by decide) _ (hget 0 (by decide)) (hd 0),
        readNWordsGo_int r _ addr 1 _ _ (by decide) _ (hget 1 (by decide)) (hd 1),
        readNWordsGo_int r _ addr 2 _ _ (by decide) _ (hget 2 (by decide)) (hd 2),
        readNWordsGo_int r _ addr 3 _ _ (by decide) _ (hget 3 (by decide)) (hd 3),
        readNWordsGo_done r _ addr 4 _ _ (by decide)]
    have hsum := digit_sum_eq r.shift v hv4
    have hlist : ∀ d0 d1 d2 d3 : Nat,
        ((((List.replicate N_WORDS 0).set 0 d0).set 1 d1).set 2 d2).set 3 d3 =
          [d0, d1, d2, d3] := by
      intro d0 d1 d2 d3
      rfl
    rw [hlist, Nat.zero_add, hsum]

/-- The first `WordExceedsModBuiltinWordBitLen` failure of the read loop,
characterized: starting from index `i`, the loop reports exactly the first
cell holding an out-of-bound integer, all cells before it (from `i`) holding
in-bound integers. -/
theorem readNWordsGo_word_err_iff (r : ModBuiltinRunner) (m : Memory) (addr : Relocatable)
    (a : Relocatable) (bl w : Nat) :
    ∀ f i words value, f = N_WORDS - i →
    (readNWordsGo r m addr i words value =
        .error (.WordExceedsModBuiltinWordBitLen a bl w) ↔
      ∃ k, i ≤ k ∧ k < N_WORDS ∧ a = addr + k ∧ bl = r.wordBitLen ∧
        m.get (addr + k) = some (.int w) ∧ r.shift ≤ w ∧
        ∀ j, i ≤ j → j < k → ∃ wj, m.get (addr + j) = some (.int wj) ∧ wj < r.shift) := by
  intro f
  induction f with
  | zero =>
    intro i words value hf
    have hi : ¬ i < N_WORDS := by omega
    rw [readNWordsGo_done r m addr i words value hi]
    constructor
    · intro hc
      exact absurd hc (by simp)
    · rintro ⟨k, hik, hk4, -⟩
      omega
  | succ f ih =>
    intro i words value hf
    by_cases hi : i < N_WORDS
    · cases hget : m.get (addr + i) with
      | none =>
        rw [readNWordsGo_none r m addr i words value hi hget]
        constructor
        · intro hc
          exact absurd hc (by simp)
        · rintro ⟨k, hik, hk4, ha, hbl, hgetk, hw, hall⟩
          rcases Nat.eq_or_lt_of_le hik with heq | hlt
          · rw [← heq, hget] at hgetk
            exact absurd hgetk (by simp)
          · obtain ⟨wj, hj, -⟩ := hall i (le_refl i) hlt
            rw [hget] at hj
            exact absurd hj (by simp)
      | some val =>
        cases val with
        | rel rv =>
          rw [readNWordsGo_rel r m addr i words value hi rv hget]
          constructor
          · intro hc
            exact absurd hc (by simp)
          · rintro ⟨k, hik, hk4, ha, hbl, hgetk, hw, hall⟩
            rcases Nat.eq_or_lt_of_le hik with heq | hlt
            · rw [← heq, hget] at hgetk
              exact absurd hgetk (by simp)
            · obtain ⟨wj, hj, -⟩ := hall i (le_refl i) hlt
              rw [hget] at hj
              exact absurd hj (by simp)
        | int w' =>
          by_cases hw' : r.shift ≤ w'
          · rw [readNWordsGo_big r m addr i words value hi w' hget hw']
            constructor
            · intro hc
              have hinj := Except.error.inj hc
              simp only [RunnerError.WordExceedsModBuiltinWordBitLen.injEq] at hinj
              obtain ⟨ha, hbl, hww⟩ := hinj
              refine ⟨i, le_refl i, hi, ha.symm, hbl.symm, ?_, ?_, ?_⟩
              · rw [hget, hww]
              · rw [← hww]
                exact hw'
              · intro j hj1 hj2
                omega
            · rintro ⟨k, hik, hk4, ha, hbl, hgetk, hw, hall⟩
              have hk : k = i := by
                by_contra hne
                have hlt : i < k := by omega
                obtain ⟨wj, hj, hjlt⟩ := hall i (le_refl i) hlt
                rw [hget] at hj
                have : w' = wj := by
                  simpa using hj
                omega
              subst hk
              rw [hget] at hgetk
              have hww : w = w' := by
                simpa using hgetk.symm
              rw [ha, hbl, hww]
          · push_neg at hw'
            rw [readNWordsGo_int r m addr i words value hi w' hget hw',
                ih (i + 1) (words.set i w') (value + w' * r.shift ^ i) (by omega)]
            constructor
            · rintro ⟨k, hik, hk4, ha, hbl, hgetk, hw, hall⟩
              refine ⟨k, by omega, hk4, ha, hbl, hgetk, hw, ?_⟩
              intro j hj1 hj2
              rcases Nat.eq_or_lt_of_le hj1 with heq | hlt
              · rw [← heq]
                exact ⟨w', hget, hw'⟩
              · exact hall j hlt hj2
            · rintro ⟨k, hik, hk4, ha, hbl, hgetk, hw, hall⟩
              have hk : i < k := by
                rcases Nat.eq_or_lt_of_le hik with heq | hlt
                · rw [← heq, hget] at hgetk
                  have : w = w' := by
                    simpa using hgetk.symm
                  omega
                · exact hlt
              refine ⟨k, by omega, hk4, ha, hbl, hgetk, hw, ?_⟩
              intro j hj1 hj2
              exact hall j (by omega) hj2
    · omega

/-- Claim C7: bound enforcement.  `write_n_words_value` fails with
`WriteNWordsValueNotZero` exactly when `value ≥ shift^N_WORDS`, and
`read_n_words_value` fails with `WordExceedsModBuiltinWordBitLen` — naming
the offending address, the `word_bit_len` and the word — exactly when the
first offending cell among those it reads holds an integer `≥ shift` (all
cells before it holding in-bound integers). -/
theorem n_words_bound_enforcement (r : ModBuiltinRunner) (m : Memory)
    (addr : Relocatable) (v : Nat) :
    ((write_n_words_value r m addr v).2 = some (.WriteNWordsValueNotZero r.name) ↔
      r.shift ^ N_WORDS ≤ v) ∧
    (∀ a bl w,
      read_n_words_value r m addr = .error (.WordExceedsModBuiltinWordBitLen a bl w) ↔
        ∃ i, i < N_WORDS ∧ a = addr + i ∧ bl = r.wordBitLen ∧
          m.get (addr + i) = some (.int w) ∧ r.shift ≤ w ∧
          ∀ j, j < i → ∃ wj, m.get (addr + j) = some (.int wj) ∧ wj < r.shift) := by
  constructor
  · rw [write_n_words_err]
    by_cases h : v < r.shift ^ 4
    · have h' : ¬ r.shift ^ N_WORDS ≤ v := by
        simpa [N_WORDS] using h
      simp [h, h']
    · have h' : r.shift ^ N_WORDS ≤ v := by
        have := Nat.not_lt.mp h
        simpa [N_WORDS] using this
      simp [h, h']
  · intro a bl w
    unfold read_n_words_value
    rw [readNWordsGo_word_err_iff r m addr a bl w (N_WORDS - 0) 0 _ _ rfl]
    constructor
    · rintro ⟨k, -, hk4, ha, hbl, hgetk, hw, hall⟩
      exact ⟨k, hk4, ha, hbl, hgetk, hw, fun j hj => hall j (Nat.zero_le j) hj⟩
    · rintro ⟨k, hk4, ha, hbl, hgetk, hw, hall⟩
      exact ⟨k, Nat.zero_le k, hk4, ha, hbl, hgetk, hw, fun j _ hj => hall j hj⟩

theorem n_words_bound_enforcement_witness :
    (write_n_words_value ⟨.Add, 3, 1, 0⟩ [] ⟨4, 0⟩ 5000).2 =
      some (.WriteNWordsValueNotZero "add_mod_builtin") ∧
    read_n_words_value ⟨.Add, 3, 1, 0⟩ [(⟨4, 0⟩, .int 9)] ⟨4, 0⟩ =
      .error (.WordExceedsModBuiltinWordBitLen (⟨4, 0⟩ : Relocatable) 3 9) := by
  constructor
  · exact (n_words_bound_enforcement ⟨.Add, 3, 1, 0⟩ [] ⟨4, 0⟩ 5000).1.mpr (by decide)
  · have h := (n_words_bound_enforcement ⟨.Add, 3, 1, 0⟩ [(⟨4, 0⟩, .int 9)] ⟨4, 0⟩ 0).2
      (⟨4, 0⟩ : Relocatable) 3 9
    refine h.mpr ⟨0, by decide, by decide, by decide, by decide, by decide, ?_⟩
    intro j hj
    omega

theorem write_read_n_words_roundtrip_witness :
    (write_n_words_value ⟨.Add, 3, 1, 0⟩ [] ⟨4, 0⟩ 2257).2 = none ∧
    read_n_words_value ⟨.Add, 3, 1, 0⟩
        (write_n_words_value ⟨.Add, 3, 1, 0⟩ [] ⟨4, 0⟩ 2257).1 ⟨4, 0⟩ =
      .ok ([1, 2, 3, 4], some 2257) := by
  have h := write_read_n_words_roundtrip ⟨.Add, 3, 1, 0⟩ [] ⟨4, 0⟩ 2257 (by decide)
  exact ⟨h.1, h.2.trans (by decide)⟩

/-! `fill_inputs` characterization. -/

theorem writePValuesGo_step (pv : List Nat) (ip : Relocatable) (i : Nat) (m : Memory)
    (h : i < N_WORDS) :
    writePValuesGo pv ip i m =
      writePValuesGo pv ip (i + 1) (m.insertAsAccessed (ip + i) (.int (pv.getD i 0))) := by
  rw [writePValuesGo]
  simp [h]

theorem writePValuesGo_done (pv : List Nat) (ip : Relocatable) (i : Nat) (m : Memory)
    (h : ¬ i < N_WORDS) :
    writePValuesGo pv ip i m = m := by
  rw [writePValuesGo]
  simp [h]

theorem writePValuesGo_unfold (pv : List Nat) (ip : Relocatable) (m : Memory) :
    writePValuesGo pv ip 0 m =
      (((m.insertAsAccessed (ip + 0) (.int (pv.getD 0 0))).insertAsAccessed
        (ip + 1) (.int (pv.getD 1 0))).insertAsAccessed
        (ip + 2) (.int (pv.getD 2 0))).insertAsAccessed (ip + 3) (.int (pv.getD 3 0)) := by
  rw [writePValuesGo_step pv ip 0 m (by decide),
      writePValuesGo_step pv ip 1 _ (by decide),
      writePValuesGo_step pv ip 2 _ (by decide),
      writePValuesGo_step pv ip 3 _ (by decide),
      writePValuesGo_done pv ip 4 _ (by decide)]

/-- The value the replicated header holds at relative cell `k` of
sub-instance `inst`. -/
def headerVal (r : ModBuiltinRunner) (inputs : Inputs) (inst k : Nat) : MaybeRelocatable :=
  if k < N_WORDS then .int (inputs.pValues.getD k 0)
  else if k = VALUES_PTR_OFFSET then .rel inputs.valuesPtr
  else if k = OFFSETS_PTR_OFFSET then .rel (inputs.offsetsPtr + 3 * inst * r.batchSize)
  else .int (inputs.n - inst * r.batchSize)

theorem writeInstanceHeader_get_at (r : ModBuiltinRunner) (bp : Relocatable)
    (inputs : Inputs) (inst : Nat) (m : Memory) (k : Nat) (hk : k < INPUT_CELLS) :
    (writeInstanceHeader r bp inputs inst m).get (bp + (inst * INPUT_CELLS + k)) =
      some (headerVal r inputs inst k) := by
  unfold writeInstanceHeader
  rw [writePValuesGo_unfold]
  simp only [Memory.get_insert, ← Relocatable.add_add, Relocatable.add_right_inj]
  have hk7 : k < 7 := hk
  interval_cases k <;>
    simp [headerVal, N_WORDS, VALUES_PTR_OFFSET, OFFSETS_PTR_OFFSET, N_OFFSET]

theorem writeInstanceHeader_frame (r : ModBuiltinRunner) (bp : Relocatable)
    (inputs : Inputs) (inst : Nat) (m : Memory) (x : Relocatable)
    (hx : ∀ k, k < INPUT_CELLS → x ≠ bp + (inst * INPUT_CELLS + k)) :
    (writeInstanceHeader r bp inputs inst m).get x = m.get x := by
  unfold writeInstanceHeader
  rw [writePValuesGo_unfold]
  simp only [Memory.get_insert, ← Relocatable.add_add]
  rw [if_neg (fun he => hx 6 (by decide) he.symm),
      if_neg (fun he => hx 5 (by decide) he.symm),
      if_neg (fun he => hx 4 (by decide) he.symm),
      if_neg (fun he => hx 3 (by decide) he.symm),
      if_neg (fun he => hx 2 (by decide) he.symm),
      if_neg (fun he => hx 1 (by decide) he.symm),
      if_neg (fun he => hx 0 (by decide) he.symm)]

theorem fillInputsGo_frame (r : ModBuiltinRunner) (bp : Relocatable) (inputs : Inputs) :
    ∀ f i0 nI (m : Memory) (x : Relocatable), f = nI - i0 →
    (∀ inst k, i0 ≤ inst → inst < nI → k < INPUT_CELLS →
      x ≠ bp + (inst * INPUT_CELLS + k)) →
    (fillInputsGo r bp inputs i0 nI m).get x = m.get x := by
  intro f
  induction f with
  | zero =>
    intro i0 nI m x hf hx
    rw [fillInputsGo]
    simp only [dif_neg (by omega : ¬ i0 < nI)]
  | succ f ih =>
    intro i0 nI m x hf hx
    by_cases h : i0 < nI
    · rw [fillInputsGo]
      simp only [dif_pos h]
      rw [ih (i0 + 1) nI _ x (by omega)
          (fun inst k h1 h2 h3 => hx inst k (by omega) h2 h3)]
      exact writeInstanceHeader_frame r bp inputs i0 m x
        (fun k hk => hx i0 k (le_refl i0) h hk)
    · rw [fillInputsGo]
      simp only [dif_neg h]

theorem fillInputsGo_get (r : ModBuiltinRunner) (bp : Relocatable) (inputs : Inputs) :
    ∀ f i0 nI (m : Memory) inst k, f = nI - i0 →
    i0 ≤ inst → inst < nI → k < INPUT_CELLS →
    (fillInputsGo r bp inputs i0 nI m).get (bp + (inst * INPUT_CELLS + k)) =
      some (headerVal r inputs inst k) := by
  intro f
  induction f with
  | zero =>
    intro i0 nI m inst k hf h1 h2 hk
    omega
  | succ f ih =>
    intro i0 nI m inst k hf h1 h2 hk
    have h : i0 < nI := by omega
    rw [fillInputsGo]
    simp only [dif_pos h]
    rcases Nat.eq_or_lt_of_le h1 with heq | hlt
    · subst heq
      rw [fillInputsGo_frame r bp inputs (nI - (i0 + 1)) (i0 + 1) nI _ _ rfl ?_]
      · exact writeInstanceHeader_get_at r bp inputs i0 m k hk
      · intro inst' k' hi' _ hk' he
        rw [Relocatable.add_right_inj] at he
        have hic : INPUT_CELLS = 7 := rfl
        rw [hic] at he hk'
        have hk7 : k < 7 := hk
        omega
    · exact ih (i0 + 1) nI _ inst k (by omega) hlt h2 hk

/-- Claim C5 counterexample: with `batch_size = 2` and `n = 100001` (not a
multiple of 2) the error is `FillMemoryMaxExceeded`, not `SafeDivFail`. -/
theorem fill_inputs_max_exceeded_not_safe_div :
    ¬ ((2 : Nat) ∣ 100001) ∧
    fill_inputs ⟨.Add, 3, 2, 0⟩ [] ⟨0, 0⟩ ⟨7, [7, 0, 0, 0], ⟨1, 0⟩, ⟨2, 0⟩, 100001⟩ =
      .error (.FillMemoryMaxExceeded "add_mod_builtin" FILL_MEMORY_MAX) ∧
    fill_inputs ⟨.Add, 3, 2, 0⟩ [] ⟨0, 0⟩ ⟨7, [7, 0, 0, 0], ⟨1, 0⟩, ⟨2, 0⟩, 100001⟩ ≠
      .error (.SafeDivFail 100001 2) := by
  refine ⟨by decide, by decide, by decide⟩

/-- Claim C5 (amended): provided `n ≤ FILL_MEMORY_MAX`, `n` must be an exact
multiple of `batch_size` (else `SafeDivFail`), and on success every
sub-instance `1 ≤ instance < n / batch_size` has its header written at
`builtin_ptr + instance*INPUT_CELLS`: the same `p` limbs at cells
`0..N_WORDS-1`, the same `values_ptr` at cell 4,
`offsets_ptr + 3*instance*batch_size` at cell 5, and
`n − instance*batch_size` (saturating) at cell 6. -/
theorem fill_inputs_replicates_headers (r : ModBuiltinRunner) (m : Memory)
    (builtinPtr : Relocatable) (inputs : Inputs)
    (hmax : inputs.n ≤ FILL_MEMORY_MAX) :
    (¬ (r.batchSize ≠ 0 ∧ r.batchSize ∣ inputs.n) →
      fill_inputs r m builtinPtr inputs = .error (.SafeDivFail inputs.n r.batchSize)) ∧
    ((r.batchSize ≠ 0 ∧ r.batchSize ∣ inputs.n) →
      ∃ m', fill_inputs r m builtinPtr inputs = .ok m' ∧
        ∀ inst, 1 ≤ inst → inst < inputs.n / r.batchSize →
          (∀ i, i < N_WORDS →
            m'.get (builtinPtr + (inst * INPUT_CELLS + i)) =
              some (.int (inputs.pValues.getD i 0))) ∧
          m'.get (builtinPtr + (inst * INPUT_CELLS + VALUES_PTR_OFFSET)) =
            some (.rel inputs.valuesPtr) ∧
          m'.get (builtinPtr + (inst * INPUT_CELLS + OFFSETS_PTR_OFFSET)) =
            some (.rel (inputs.offsetsPtr + 3 * inst * r.batchSize)) ∧
          m'.get (builtinPtr + (inst * INPUT_CELLS + N_OFFSET)) =
            some (.int (inputs.n - inst * r.batchSize))) := by
  have hnotmax : ¬ FILL_MEMORY_MAX < inputs.n := by omega
  constructor
  · intro hdiv
    simp [fill_inputs, hnotmax, safe_div_usize, hdiv, bind_error_eq]
  · intro hdiv
    refine ⟨fillInputsGo r builtinPtr inputs 1 (inputs.n / r.batchSize) m, ?_, ?_⟩
    · simp [fill_inputs, hnotmax, safe_div_usize, hdiv, bind_ok_eq]
    · intro inst h1 h2
      refine ⟨?_, ?_, ?_, ?_⟩
      · intro i hi
        rw [fillInputsGo_get r builtinPtr inputs _ 1 _ m inst i rfl h1 h2
            (by have h4 : i < 4 := hi; show i < 7; omega)]
        have : headerVal r inputs inst i = .int (inputs.pValues.getD i 0) := by
          unfold headerVal
          rw [if_pos hi]
        rw [this]
      · rw [fillInputsGo_get r builtinPtr inputs _ 1 _ m inst VALUES_PTR_OFFSET rfl h1 h2
            (by decide)]
        rfl
      · rw [fillInputsGo_get r builtinPtr inputs _ 1 _ m inst OFFSETS_PTR_OFFSET rfl h1 h2
            (by decide)]
        rfl
      · rw [fillInputsGo_get r builtinPtr inputs _ 1 _ m inst N_OFFSET rfl h1 h2
            (by decide)]
        rfl

theorem fill_inputs_replicates_headers_witness :
    ∃ m', fill_inputs ⟨.Add, 3, 1, 0⟩ [] ⟨0, 0⟩ ⟨7, [7, 0, 0, 0], ⟨1, 0⟩, ⟨2, 0⟩, 2⟩ =
        .ok m' ∧
      m'.get ((⟨0, 0⟩ : Relocatable) + (1 * INPUT_CELLS + N_OFFSET)) = some (.int 1) := by
  have h := (fill_inputs_replicates_headers ⟨.Add, 3, 1, 0⟩ [] ⟨0, 0⟩
    ⟨7, [7, 0, 0, 0], ⟨1, 0⟩, ⟨2, 0⟩, 2⟩ (by decide)).2 (by decide)
  obtain ⟨m', heq, hp⟩ := h
  have h1 := hp 1 (le_refl 1) (by decide)
  exact ⟨m', heq, (h1.2.2.2).trans (by decide)⟩

/-! `fill_offsets` characterization. -/

theorem fillOffsetsCopyGo_frame (ptr : Relocatable) (index i : Nat)
    (v : MaybeRelocatable) :
    ∀ f c0 nC (m : Memory) (x : Relocatable), f = nC - c0 →
    (∀ ci, c0 ≤ ci → ci < nC → x ≠ ptr + (3 * (index + ci) + i)) →
    (fillOffsetsCopyGo ptr index i v c0 nC m).get x = m.get x := by
  intro f
  induction f with
  | zero =>
    intro c0 nC m x hf hx
    rw [fillOffsetsCopyGo]
    simp only [dif_neg (by omega : ¬ c0 < nC)]
  | succ f ih =>
    intro c0 nC m x hf hx
    by_cases h : c0 < nC
    · rw [fillOffsetsCopyGo]
      simp only [dif_pos h]
      rw [ih (c0 + 1) nC _ x (by omega) (fun ci h1 h2 => hx ci (by omega) h2)]
      rw [Memory.get_insert, if_neg (fun he => hx c0 (le_refl c0) h he.symm)]
    · rw [fillOffsetsCopyGo]
      simp only [dif_neg h]

theorem fillOffsetsCopyGo_get_target (ptr : Relocatable) (index i : Nat)
    (v : MaybeRelocatable) :
    ∀ f c0 nC (m : Memory) ci, f = nC - c0 → c0 ≤ ci → ci < nC →
    (fillOffsetsCopyGo ptr index i v c0 nC m).get (ptr + (3 * (index + ci) + i)) =
      some v := by
  intro f
  induction f with
  | zero =>
    intro c0 nC m ci hf h1 h2
    omega
  | succ f ih =>
    intro c0 nC m ci hf h1 h2
    have h : c0 < nC := by omega
    rw [fillOffsetsCopyGo]
    simp only [dif_pos h]
    rcases Nat.eq_or_lt_of_le h1 with heq | hlt
    · subst heq
      rw [fillOffsetsCopyGo_frame ptr index i v (nC - (c0 + 1)) (c0 + 1) nC _ _ rfl ?_]
      · rw [Memory.get_insert, if_pos rfl]
      · intro ci' hc1 hc2 he
        rw [Relocatable.add_right_inj] at he
        omega
    · exact ih (c0 + 1) nC _ ci (by omega) hlt h2

/-- Claim C6: when `n > index`, `fill_offsets` (as invoked by `fill_memory`
with `n_copies = n − index`) copies the three cells at `offsets_ptr + 0,1,2`
`n − index` times, the `k`-th landing at `offsets_ptr + 3*(index+copy_i)+k`
for each `copy_i < n − index`, and leaves every other offset cell unchanged. -/
theorem fill_offsets_pads_copies (m : Memory) (ptr : Relocatable) (index n : Nat)
    (m' : Memory) (hni : index < n)
    (hok : fill_offsets m ptr index (n - index) = .ok m') :
    (∀ k, k < 3 → ∃ vk, m.get (ptr + k) = some vk ∧
      ∀ ci, ci < n - index → m'.get (ptr + (3 * (index + ci) + k)) = some vk) ∧
    (∀ j, (∀ ci k, ci < n - index → k < 3 → j ≠ 3 * (index + ci) + k) →
      m'.get (ptr + j) = m.get (ptr + j)) := by
  have hnc : ¬ (n - index = 0) := by omega
  unfold fill_offsets at hok
  rw [if_neg hnc] at hok
  unfold fillOffsetsStep at hok
  cases hget0 : m.get (ptr + (0 : Nat)) with
  | none =>
    rw [hget0] at hok
    exact absurd hok (by simp [bind_error_eq])
  | some v0 =>
    rw [hget0] at hok
    simp only [bind_ok_eq] at hok
    have hm0get : (fillOffsetsCopyGo ptr index 0 v0 0 (n - index) m).get (ptr + (1 : Nat)) =
        m.get (ptr + (1 : Nat)) := by
      refine fillOffsetsCopyGo_frame ptr index 0 v0 _ 0 (n - index) m _ rfl ?_
      intro ci h1 h2 he
      rw [Relocatable.add_right_inj] at he
      omega
    rw [hm0get] at hok
    cases hget1 : m.get (ptr + (1 : Nat)) with
    | none =>
      rw [hget1] at hok
      exact absurd hok (by simp [bind_error_eq])
    | some v1 =>
      rw [hget1] at hok
      simp only [bind_ok_eq] at hok
      have hm1get : (fillOffsetsCopyGo ptr index 1 v1 0 (n - index)
          (fillOffsetsCopyGo ptr index 0 v0 0 (n - index) m)).get (ptr + (2 : Nat)) =
          m.get (ptr + (2 : Nat)) := by
        rw [fillOffsetsCopyGo_frame ptr index 1 v1 _ 0 (n - index) _ _ rfl ?_,
            fillOffsetsCopyGo_frame ptr index 0 v0 _ 0 (n - index) _ _ rfl ?_]
        · intro ci h1 h2 he
          rw [Relocatable.add_right_inj] at he
          omega
        · intro ci h1 h2 he
          rw [Relocatable.add_right_inj] at he
          omega
      rw [hm1get] at hok
      cases hget2 : m.get (ptr + (2 : Nat)) with
      | none =>
        rw [hget2] at hok
        exact absurd hok (by simp)
      | some v2 =>
        rw [hget2] at hok
        have hm' : m' = fillOffsetsCopyGo ptr index 2 v2 0 (n - index)
            (fillOffsetsCopyGo ptr index 1 v1 0 (n - index)
              (fillOffsetsCopyGo ptr index 0 v0 0 (n - index) m)) :=
          (Except.ok.inj hok).symm
        subst hm'
        constructor
        · intro k hk
          interval_cases k
          · refine ⟨v0, hget0, ?_⟩
            intro ci hci
            rw [fillOffsetsCopyGo_frame ptr index 2 v2 _ 0 (n - index) _ _ rfl ?_,
                fillOffsetsCopyGo_frame ptr index 1 v1 _ 0 (n - index) _ _ rfl ?_]
            · exact fillOffsetsCopyGo_get_target ptr index 0 v0 _ 0 (n - index) m ci rfl
                (Nat.zero_le ci) hci
            · intro ci' h1 h2 he
              rw [Relocatable.add_right_inj] at he
              omega
            · intro ci' h1 h2 he
              rw [Relocatable.add_right_inj] at he
              omega
          · refine ⟨v1, hget1, ?_⟩
            intro ci hci
            rw [fillOffsetsCopyGo_frame ptr index 2 v2 _ 0 (n - index) _ _ rfl ?_]
            · exact fillOffsetsCopyGo_get_target ptr index 1 v1 _ 0 (n - index) _ ci rfl
                (Nat.zero_le ci) hci
            · intro ci' h1 h2 he
              rw [Relocatable.add_right_inj] at he
              omega
          · refine ⟨v2, hget2, ?_⟩
            intro ci hci
            exact fillOffsetsCopyGo_get_target ptr index 2 v2 _ 0 (n - index) _ ci rfl
              (Nat.zero_le ci) hci
        · intro j hj
          rw [fillOffsetsCopyGo_frame ptr index 2 v2 _ 0 (n - index) _ _ rfl ?_,
              fillOffsetsCopyGo_frame ptr index 1 v1 _ 0 (n - index) _ _ rfl ?_,
              fillOffsetsCopyGo_frame ptr index 0 v0 _ 0 (n - index) _ _ rfl ?_]
          · intro ci h1 h2 he
            rw [Relocatable.add_right_inj] at he
            exact hj ci 0 h2 (by decide) he
          · intro ci h1 h2 he
            rw [Relocatable.add_right_inj] at he
            exact hj ci 1 h2 (by decide) he
          · intro ci h1 h2 he
            rw [Relocatable.add_right_inj] at he
            exact hj ci 2 h2 (by decide) he

theorem fill_offsets_pads_copies_witness :
    ∃ vk, Memory.get ([(⟨2, 0⟩, .int 9), (⟨2, 1⟩, .int 4), (⟨2, 2⟩, .int 8)] : Memory)
        ((⟨2, 0⟩ : Relocatable) + (0 : Nat)) = some vk ∧
      Memory.get ([(⟨2, 5⟩, MaybeRelocatable.int 8), (⟨2, 4⟩, MaybeRelocatable.int 4),
        (⟨2, 3⟩, MaybeRelocatable.int 9), (⟨2, 0⟩, MaybeRelocatable.int 9),
        (⟨2, 1⟩, MaybeRelocatable.int 4), (⟨2, 2⟩, MaybeRelocatable.int 8)] : Memory)
        ((⟨2, 0⟩ : Relocatable) + (3 * (1 + 0) + 0)) = some vk := by
  have hok : fill_offsets
      ([(⟨2, 0⟩, .int 9), (⟨2, 1⟩, .int 4), (⟨2, 2⟩, .int 8)] : Memory) ⟨2, 0⟩ 1 (2 - 1) =
      .ok ([(⟨2, 5⟩, MaybeRelocatable.int 8), (⟨2, 4⟩, MaybeRelocatable.int 4),
        (⟨2, 3⟩, MaybeRelocatable.int 9), (⟨2, 0⟩, MaybeRelocatable.int 9),
        (⟨2, 1⟩, MaybeRelocatable.int 4), (⟨2, 2⟩, MaybeRelocatable.int 8)] : Memory) := by
    simp [fill_offsets, fillOffsetsStep, fillOffsetsCopyGo, Memory.get,
      Memory.insertAsAccessed, Relocatable.add_def, bind_ok_eq]
  have h := (fill_offsets_pads_copies
    ([(⟨2, 0⟩, .int 9), (⟨2, 1⟩, .int 4), (⟨2, 2⟩, .int 8)] : Memory) ⟨2, 0⟩ 1 2
    ([(⟨2, 5⟩, MaybeRelocatable.int 8), (⟨2, 4⟩, MaybeRelocatable.int 4),
      (⟨2, 3⟩, MaybeRelocatable.int 9), (⟨2, 0⟩, MaybeRelocatable.int 9),
      (⟨2, 1⟩, MaybeRelocatable.int 4), (⟨2, 2⟩, MaybeRelocatable.int 8)] : Memory)
    (by decide) hok).1 0 (by decide)
  obtain ⟨vk, hv, hcp⟩ := h
  exact ⟨vk, hv, hcp 0 (by decide)⟩

/-! `fill_value` characterization. -/

/-- `writeNWordsE` succeeds exactly on values that fit, returning the
written memory. -/
theorem writeNWordsE_ok (r : ModBuiltinRunner) (m : Memory) (addr : Relocatable)
    (v : Nat) (hv : v < r.shift ^ 4) :
    writeNWordsE r m addr v = .ok (write_n_words_value r m addr v).1 := by
  unfold writeNWordsE
  have herr := write_n_words_err r m addr v
  rcases hw : write_n_words_value r m addr v with ⟨mm, oe⟩
  rw [hw] at herr
  simp only [hv, if_pos] at herr
  simp only [herr]

/-- When `div_mod_unsigned lhs rhs p` succeeds, its result is the (unique)
solution below `p` of `rhs * x ≡ lhs (mod p)`. -/
theorem div_mod_unsigned_spec (lhs rhs p x : Nat)
    (h : div_mod_unsigned lhs rhs p = .ok x) :
    x < p ∧ rhs * x % p = lhs % p := by
  unfold div_mod_unsigned at h
  by_cases hc : p ≠ 0 ∧ Nat.gcd rhs p = 1
  · rw [if_pos hc] at h
    obtain ⟨hp, hg⟩ := hc
    have hppos : 0 < p := Nat.pos_of_ne_zero hp
    have hx : (lhs * ((Nat.gcdA rhs p % (p : Int)).toNat)) % p = x := Except.ok.inj h
    have ha0 : (((Nat.gcdA rhs p % (p : Int)).toNat : Int)) = Nat.gcdA rhs p % (p : Int) :=
      Int.toNat_of_nonneg (Int.emod_nonneg _ (by exact_mod_cast hp))
    have hg' : (1 : Int) = rhs * Nat.gcdA rhs p + p * Nat.gcdB rhs p := by
      have := Nat.gcd_eq_gcd_ab rhs p
      rw [hg] at this
      exact_mod_cast this
    have key_int : ((rhs : Int) * ((Nat.gcdA rhs p % (p : Int)).toNat)) % p = 1 % p := by
      rw [ha0]
      conv_lhs => rw [Int.mul_emod]
      rw [Int.emod_emod_of_dvd _ (dvd_refl _), ← Int.mul_emod]
      have hrw : (rhs : Int) * Nat.gcdA rhs p = 1 - p * Nat.gcdB rhs p := by
        linarith [hg']
      rw [hrw, Int.sub_emod, Int.mul_emod_right, sub_zero,
        Int.emod_emod_of_dvd _ (dvd_refl _)]
    have key : rhs * ((Nat.gcdA rhs p % (p : Int)).toNat) % p = 1 % p := by
      exact_mod_cast key_int
    constructor
    · rw [← hx]
      exact Nat.mod_lt _ hppos
    · rw [← hx]
      calc rhs * (lhs * ((Nat.gcdA rhs p % (p : Int)).toNat) % p) % p
          = rhs * (lhs * ((Nat.gcdA rhs p % (p : Int)).toNat)) % p := by
            conv_lhs => rw [Nat.mul_mod]
            rw [Nat.mod_mod_of_dvd _ (dvd_refl p), ← Nat.mul_mod]
        _ = lhs * (rhs * ((Nat.gcdA rhs p % (p : Int)).toNat)) % p := by
            rw [mul_left_comm]
        _ = lhs * 1 % p := by
            conv_lhs => rw [Nat.mul_mod]
            rw [key, ← Nat.mul_mod]
        _ = lhs % p := by rw [mul_one]
  · rw [if_neg hc] at h
    exact absurd h (by simp)

/-- The unique-solution argument for addition: for `w < p`,
`(a + w) % p = c % p` holds exactly for `w = (c − a) % p` (when `a ≤ c`). -/
theorem add_unique_solution (a c p w : Nat) (hp : p ≠ 0) (hca : a ≤ c) (hw : w < p) :
    (a + w) % p = c % p ↔ w = (c - a) % p := by
  have hbase : (a + (c - a) % p) % p = c % p := by
    conv_lhs => rw [Nat.add_mod, Nat.mod_mod_of_dvd _ (dvd_refl p), ← Nat.add_mod]
    rw [Nat.add_sub_cancel' hca]
  constructor
  · intro hcons
    have hmeq : a + w ≡ a + (c - a) % p [MOD p] := by
      unfold Nat.ModEq
      rw [hcons, hbase]
    have := Nat.ModEq.add_left_cancel' a hmeq
    unfold Nat.ModEq at this
    rw [Nat.mod_eq_of_lt hw, Nat.mod_mod_of_dvd _ (dvd_refl p)] at this
    exact this
  · intro he
    rw [he]
    exact hbase

/-- The unique-solution argument for multiplication: for `w < p` and
`gcd a p = 1`, `(a * w) % p = c % p` holds exactly for the `div_mod` result. -/
theorem mul_unique_solution (a c p w dv : Nat) (hp : p ≠ 0)
    (hg : Nat.gcd a p = 1) (hdm : div_mod_unsigned c a p = .ok dv) (hw : w < p) :
    a * w % p = c % p ↔ w = dv := by
  obtain ⟨hdvlt, hdveq⟩ := div_mod_unsigned_spec c a p dv hdm
  constructor
  · intro hcons
    have hmeq : a * w ≡ a * dv [MOD p] := by
      unfold Nat.ModEq
      rw [hcons, hdveq]
    have hpg : Nat.gcd p a = 1 := by
      rw [Nat.gcd_comm]
      exact hg
    have := Nat.ModEq.cancel_left_of_coprime hpg hmeq
    unfold Nat.ModEq at this
    rw [Nat.mod_eq_of_lt hw, Nat.mod_eq_of_lt hdvlt] at this
    exact this
  · intro he
    rw [he]
    exact hdveq

/-- Claim C2 (amended): on a triple with exactly one missing operand, the
first `fill_value` call writes the unique consistent value reduced mod `p`
at the missing address and returns `true` — provided the inverse operation
succeeds: for `add_mod`, the present `c` must be at least the present
operand (otherwise the unsigned subtraction panics), and for `mul_mod` the
present operand must be invertible mod `p` (`div_mod_unsigned` succeeds);
`p` is nonzero and fits in `N_WORDS` words, as when read by `read_inputs`. -/
theorem fill_value_one_unknown_completeness (r : ModBuiltinRunner) (m : Memory)
    (inputs : Inputs) (index : Nat) (o0 o1 o2 : Nat) (w0 w1 w2 : List Nat)
    (hp0 : inputs.p ≠ 0) (hple : inputs.p ≤ r.shift ^ N_WORDS)
    (ho0 : m.getInteger (inputs.offsetsPtr + (3 * index)) = .ok o0)
    (ho1 : m.getInteger (inputs.offsetsPtr + (3 * index + 1)) = .ok o1)
    (ho2 : m.getInteger (inputs.offsetsPtr + (3 * index + 2)) = .ok o2) :
    -- add_mod, `c` missing: writes `(a + b) mod p`
    ((∀ a b, read_n_words_value r m (inputs.valuesPtr + o0) = .ok (w0, some a) →
      read_n_words_value r m (inputs.valuesPtr + o1) = .ok (w1, some b) →
      read_n_words_value r m (inputs.valuesPtr + o2) = .ok (w2, none) →
      fill_value r m inputs index .Add .Sub =
        .ok ((write_n_words_value r m (inputs.valuesPtr + o2)
          ((a + b) % inputs.p)).1, true) ∧
      (∃ ws, read_n_words_value r
          (write_n_words_value r m (inputs.valuesPtr + o2) ((a + b) % inputs.p)).1
          (inputs.valuesPtr + o2) = .ok (ws, some ((a + b) % inputs.p))) ∧
      ∀ w, w < inputs.p → ((a + b) % inputs.p = w % inputs.p ↔ w = (a + b) % inputs.p)) ∧
    -- mul_mod, `c` missing: writes `(a * b) mod p`
    (∀ a b, read_n_words_value r m (inputs.valuesPtr + o0) = .ok (w0, some a) →
      read_n_words_value r m (inputs.valuesPtr + o1) = .ok (w1, some b) →
      read_n_words_value r m (inputs.valuesPtr + o2) = .ok (w2, none) →
      fill_value r m inputs index .Mul (.DivMod inputs.p) =
        .ok ((write_n_words_value r m (inputs.valuesPtr + o2)
          ((a * b) % inputs.p)).1, true) ∧
      (∃ ws, read_n_words_value r
          (write_n_words_value r m (inputs.valuesPtr + o2) ((a * b) % inputs.p)).1
          (inputs.valuesPtr + o2) = .ok (ws, some ((a * b) % inputs.p))) ∧
      ∀ w, w < inputs.p → (a * b % inputs.p = w % inputs.p ↔ w = a * b % inputs.p))) ∧
    -- add_mod, `b` missing: writes `(c − a) mod p`, requires `a ≤ c`
    ((∀ a c, read_n_words_value r m (inputs.valuesPtr + o0) = .ok (w0, some a) →
      read_n_words_value r m (inputs.valuesPtr + o1) = .ok (w1, none) →
      read_n_words_value r m (inputs.valuesPtr + o2) = .ok (w2, some c) →
      a ≤ c →
      fill_value r m inputs index .Add .Sub =
        .ok ((write_n_words_value r m (inputs.valuesPtr + o1)
          ((c - a) % inputs.p)).1, true) ∧
      (∃ ws, read_n_words_value r
          (write_n_words_value r m (inputs.valuesPtr + o1) ((c - a) % inputs.p)).1
          (inputs.valuesPtr + o1) = .ok (ws, some ((c - a) % inputs.p))) ∧
      ∀ w, w < inputs.p → ((a + w) % inputs.p = c % inputs.p ↔ w = (c - a) % inputs.p)) ∧
    -- mul_mod, `b` missing: writes the `div_mod` result, requires invertibility
    (∀ a c dv, read_n_words_value r m (inputs.valuesPtr + o0) = .ok (w0, some a) →
      read_n_words_value r m (inputs.valuesPtr + o1) = .ok (w1, none) →
      read_n_words_value r m (inputs.valuesPtr + o2) = .ok (w2, some c) →
      Nat.gcd a inputs.p = 1 → div_mod_unsigned c a inputs.p = .ok dv →
      fill_value r m inputs index .Mul (.DivMod inputs.p) =
        .ok ((write_n_words_value r m (inputs.valuesPtr + o1) dv).1, true) ∧
      (∃ ws, read_n_words_value r
          (write_n_words_value r m (inputs.valuesPtr + o1) dv).1
          (inputs.valuesPtr + o1) = .ok (ws, some dv)) ∧
      ∀ w, w < inputs.p → (a * w % inputs.p = c % inputs.p ↔ w = dv))) ∧
    -- add_mod, `a` missing: writes `(c − b) mod p`, requires `b ≤ c`
    ((∀ b c, read_n_words_value r m (inputs.valuesPtr + o0) = .ok (w0, none) →
      read_n_words_value r m (inputs.valuesPtr + o1) = .ok (w1, some b) →
      read_n_words_value r m (inputs.valuesPtr + o2) = .ok (w2, some c) →
      b ≤ c →
      fill_value r m inputs index .Add .Sub =
        .ok ((write_n_words_value r m (inputs.valuesPtr + o0)
          ((c - b) % inputs.p)).1, true) ∧
      (∃ ws, read_n_words_value r
          (write_n_words_value r m (inputs.valuesPtr + o0) ((c - b) % inputs.p)).1
          (inputs.valuesPtr + o0) = .ok (ws, some ((c - b) % inputs.p))) ∧
      ∀ w, w < inputs.p → ((w + b) % inputs.p = c % inputs.p ↔ w = (c - b) % inputs.p)) ∧
    -- mul_mod, `a` missing
    (∀ b c dv, read_n_words_value r m (inputs.valuesPtr + o0) = .ok (w0, none) →
      read_n_words_value r m (inputs.valuesPtr + o1) = .ok (w1, some b) →
      read_n_words_value r m (inputs.valuesPtr + o2) = .ok (w2, some c) →
      Nat.gcd b inputs.p = 1 → div_mod_unsigned c b inputs.p = .ok dv →
      fill_value r m inputs index .Mul (.DivMod inputs.p) =
        .ok ((write_n_words_value r m (inputs.valuesPtr + o0) dv).1, true) ∧
      (∃ ws, read_n_words_value r
          (write_n_words_value r m (inputs.valuesPtr + o0) dv).1
          (inputs.valuesPtr + o0) = .ok (ws, some dv)) ∧
      ∀ w, w < inputs.p → (w * b % inputs.p = c % inputs.p ↔ w = dv))) := by
  have hppos : 0 < inputs.p := Nat.pos_of_ne_zero hp0
  have hple4 : inputs.p ≤ r.shift ^ 4 := hple
  have hmodlt : ∀ t : Nat, t % inputs.p < r.shift ^ 4 :=
    fun t => lt_of_lt_of_le (Nat.mod_lt _ hppos) hple4
  refine ⟨⟨?_, ?_⟩, ⟨?_, ?_⟩, ⟨?_, ?_⟩⟩
  · -- add, c missing
    intro a b hv0 hv1 hv2
    refine ⟨?_, ?_, ?_⟩
    · simp [fill_value, ho0, ho1, ho2, hv0, hv1, hv2, bind_ok_eq, apply_op, mod_floor,
        hp0, if_neg, writeNWordsE_ok _ _ _ _ (hmodlt (a + b))]
    · obtain ⟨-, hrt⟩ := write_read_n_words_roundtrip r m (inputs.valuesPtr + o2)
        ((a + b) % inputs.p) (hmodlt (a + b))
      exact ⟨_, hrt⟩
    · intro w hw
      constructor
      · intro hcons
        rw [Nat.mod_eq_of_lt hw] at hcons
        exact hcons.symm
      · intro he
        rw [he, Nat.mod_mod_of_dvd _ (dvd_refl _)]
  · -- mul, c missing
    intro a b hv0 hv1 hv2
    refine ⟨?_, ?_, ?_⟩
    · simp [fill_value, ho0, ho1, ho2, hv0, hv1, hv2, bind_ok_eq, apply_op, mod_floor,
        hp0, if_neg, writeNWordsE_ok _ _ _ _ (hmodlt (a * b))]
    · obtain ⟨-, hrt⟩ := write_read_n_words_roundtrip r m (inputs.valuesPtr + o2)
        ((a * b) % inputs.p) (hmodlt (a * b))
      exact ⟨_, hrt⟩
    · intro w hw
      constructor
      · intro hcons
        rw [Nat.mod_eq_of_lt hw] at hcons
        exact hcons.symm
      · intro he
        rw [he, Nat.mod_mod_of_dvd _ (dvd_refl _)]
  · -- add, b missing
    intro a c hv0 hv1 hv2 hca
    refine ⟨?_, ?_, ?_⟩
    · simp [fill_value, ho0, ho1, ho2, hv0, hv1, hv2, bind_ok_eq, apply_op, hca,
        if_pos, mod_floor, hp0, if_neg,
        writeNWordsE_ok _ _ _ _ (hmodlt (c - a))]
    · obtain ⟨-, hrt⟩ := write_read_n_words_roundtrip r m (inputs.valuesPtr + o1)
        ((c - a) % inputs.p) (hmodlt (c - a))
      exact ⟨_, hrt⟩
    · intro w hw
      exact add_unique_solution a c inputs.p w hp0 hca hw
  · -- mul, b missing
    intro a c dv hv0 hv1 hv2 hg hdm
    obtain ⟨hdvlt, -⟩ := div_mod_unsigned_spec c a inputs.p dv hdm
    have hdvmod : dv % inputs.p = dv := Nat.mod_eq_of_lt hdvlt
    refine ⟨?_, ?_, ?_⟩
    · simp [fill_value, ho0, ho1, ho2, hv0, hv1, hv2, bind_ok_eq, apply_op, hdm,
        mod_floor, hp0, if_neg, hdvmod,
        writeNWordsE_ok _ _ _ _ (lt_of_lt_of_le hdvlt hple4)]
    · obtain ⟨-, hrt⟩ := write_read_n_words_roundtrip r m (inputs.valuesPtr + o1)
        dv (lt_of_lt_of_le hdvlt hple4)
      exact ⟨_, hrt⟩
    · intro w hw
      exact mul_unique_solution a c inputs.p w dv hp0 hg hdm hw
  · -- add, a missing
    intro b c hv0 hv1 hv2 hcb
    refine ⟨?_, ?_, ?_⟩
    · simp [fill_value, ho0, ho1, ho2, hv0, hv1, hv2, bind_ok_eq, apply_op, hcb,
        if_pos, mod_floor, hp0, if_neg,
        writeNWordsE_ok _ _ _ _ (hmodlt (c - b))]
    · obtain ⟨-, hrt⟩ := write_read_n_words_roundtrip r m (inputs.valuesPtr + o0)
        ((c - b) % inputs.p) (hmodlt (c - b))
      exact ⟨_, hrt⟩
    · intro w hw
      have h := add_unique_solution b c inputs.p w hp0 hcb hw
      constructor
      · intro hcons
        exact h.mp (by rw [Nat.add_comm] at hcons; exact hcons)
      · intro he
        rw [Nat.add_comm]
        exact h.mpr he
  · -- mul, a missing
    intro b c dv hv0 hv1 hv2 hg hdm
    obtain ⟨hdvlt, -⟩ := div_mod_unsigned_spec c b inputs.p dv hdm
    have hdvmod : dv % inputs.p = dv := Nat.mod_eq_of_lt hdvlt
    refine ⟨?_, ?_, ?_⟩
    · simp [fill_value, ho0, ho1, ho2, hv0, hv1, hv2, bind_ok_eq, apply_op, hdm,
        mod_floor, hp0, if_neg, hdvmod,
        writeNWordsE_ok _ _ _ _ (lt_of_lt_of_le hdvlt hple4)]
    · obtain ⟨-, hrt⟩ := write_read_n_words_roundtrip r m (inputs.valuesPtr + o0)
        dv (lt_of_lt_of_le hdvlt hple4)
      exact ⟨_, hrt⟩
    · intro w hw
      have h := mul_unique_solution b c inputs.p w dv hp0 hg hdm hw
      constructor
      · intro hcons
        exact h.mp (by rw [Nat.mul_comm] at hcons; exact hcons)
      · intro he
        rw [Nat.mul_comm]
        exact h.mpr he

/-- Claim C2 counterexample: `p = 7`, `a = 5`, `c = 2`, `b` missing.  The
value `b = 4 ∈ [0,7)` is consistent (`5 + 4 ≡ 2 (mod 7)`), yet `fill_value`
does not write it: the unsigned subtraction `c − a` underflows and the call
panics (`PanicSubUnderflow`) instead of returning `true`. -/
theorem fill_value_sub_underflow_panics :
    read_n_words_value ⟨.Add, 3, 1, 0⟩
      ([(⟨2, 0⟩, .int 0), (⟨2, 1⟩, .int 4), (⟨2, 2⟩, .int 8),
        (⟨1, 0⟩, .int 5), (⟨1, 1⟩, .int 0), (⟨1, 2⟩, .int 0), (⟨1, 3⟩, .int 0),
        (⟨1, 8⟩, .int 2), (⟨1, 9⟩, .int 0), (⟨1, 10⟩, .int 0), (⟨1, 11⟩, .int 0)] : Memory)
      ⟨1, 0⟩ = .ok ([5, 0, 0, 0], some 5) ∧
    read_n_words_value ⟨.Add, 3, 1, 0⟩
      ([(⟨2, 0⟩, .int 0), (⟨2, 1⟩, .int 4), (⟨2, 2⟩, .int 8),
        (⟨1, 0⟩, .int 5), (⟨1, 1⟩, .int 0), (⟨1, 2⟩, .int 0), (⟨1, 3⟩, .int 0),
        (⟨1, 8⟩, .int 2), (⟨1, 9⟩, .int 0), (⟨1, 10⟩, .int 0), (⟨1, 11⟩, .int 0)] : Memory)
      ⟨1, 4⟩ = .ok ([0, 0, 0, 0], none) ∧
    read_n_words_value ⟨.Add, 3, 1, 0⟩
      ([(⟨2, 0⟩, .int 0), (⟨2, 1⟩, .int 4), (⟨2, 2⟩, .int 8),
        (⟨1, 0⟩, .int 5), (⟨1, 1⟩, .int 0), (⟨1, 2⟩, .int 0), (⟨1, 3⟩, .int 0),
        (⟨1, 8⟩, .int 2), (⟨1, 9⟩, .int 0), (⟨1, 10⟩, .int 0), (⟨1, 11⟩, .int 0)] : Memory)
      ⟨1, 8⟩ = .ok ([2, 0, 0, 0], some 2) ∧
    (5 + 4) % 7 = 2 % 7 ∧ (4 : Nat) < 7 ∧
    fill_value ⟨.Add, 3, 1, 0⟩
      ([(⟨2, 0⟩, .int 0), (⟨2, 1⟩, .int 4), (⟨2, 2⟩, .int 8),
        (⟨1, 0⟩, .int 5), (⟨1, 1⟩, .int 0), (⟨1, 2⟩, .int 0), (⟨1, 3⟩, .int 0),
        (⟨1, 8⟩, .int 2), (⟨1, 9⟩, .int 0), (⟨1, 10⟩, .int 0), (⟨1, 11⟩, .int 0)] : Memory)
      ⟨7, [7, 0, 0, 0], ⟨1, 0⟩, ⟨2, 0⟩, 1⟩ 0 .Add .Sub = .error .PanicSubUnderflow := by
  refine ⟨?_, ?_, ?_, by decide, by decide, ?_⟩ <;>
    simp [fill_value, read_n_words_value, readNWordsGo, Memory.get, Memory.getInteger,
      Relocatable.add_def, ModBuiltinRunner.shift, N_WORDS, apply_op, mod_floor,
      bind_ok_eq, bind_error_eq]

theorem fill_value_one_unknown_completeness_witness :
    fill_value ⟨.Add, 3, 1, 0⟩
      ([(⟨2, 0⟩, .int 0), (⟨2, 1⟩, .int 4), (⟨2, 2⟩, .int 8),
        (⟨1, 0⟩, .int 5), (⟨1, 1⟩, .int 0), (⟨1, 2⟩, .int 0), (⟨1, 3⟩, .int 0),
        (⟨1, 4⟩, .int 6), (⟨1, 5⟩, .int 0), (⟨1, 6⟩, .int 0), (⟨1, 7⟩, .int 0)] : Memory)
      ⟨7, [7, 0, 0, 0], ⟨1, 0⟩, ⟨2, 0⟩, 1⟩ 0 .Add .Sub =
      .ok ((write_n_words_value ⟨.Add, 3, 1, 0⟩
        ([(⟨2, 0⟩, .int 0), (⟨2, 1⟩, .int 4), (⟨2, 2⟩, .int 8),
          (⟨1, 0⟩, .int 5), (⟨1, 1⟩, .int 0), (⟨1, 2⟩, .int 0), (⟨1, 3⟩, .int 0),
          (⟨1, 4⟩, .int 6), (⟨1, 5⟩, .int 0), (⟨1, 6⟩, .int 0), (⟨1, 7⟩, .int 0)] : Memory)
        ((⟨1, 0⟩ : Relocatable) + (8 : Nat)) ((5 + 6) % 7)).1, true) := by
  have h := (fill_value_one_unknown_completeness ⟨.Add, 3, 1, 0⟩
    ([(⟨2, 0⟩, .int 0), (⟨2, 1⟩, .int 4), (⟨2, 2⟩, .int 8),
      (⟨1, 0⟩, .int 5), (⟨1, 1⟩, .int 0), (⟨1, 2⟩, .int 0), (⟨1, 3⟩, .int 0),
      (⟨1, 4⟩, .int 6), (⟨1, 5⟩, .int 0), (⟨1, 6⟩, .int 0), (⟨1, 7⟩, .int 0)] : Memory)
    ⟨7, [7, 0, 0, 0], ⟨1, 0⟩, ⟨2, 0⟩, 1⟩ 0 0 4 8 [5, 0, 0, 0] [6, 0, 0, 0]
    (List.replicate N_WORDS 0) (by decide) (by decide) (by decide) (by decide)
    (by decide)).1.1 5 6 ?_ ?_ ?_
  · exact h.1
  · simp [read_n_words_value, readNWordsGo, Memory.get, Relocatable.add_def,
      ModBuiltinRunner.shift, N_WORDS]
  · simp [read_n_words_value, readNWordsGo, Memory.get, Relocatable.add_def,
      ModBuiltinRunner.shift, N_WORDS]
  · simp [read_n_words_value, readNWordsGo, Memory.get, Relocatable.add_def,
      ModBuiltinRunner.shift, N_WORDS]

/-- The value of `apply_op` for the forward operations `Add`/`Mul` (total;
used to state deduction soundness). -/
def opValue (op : Operation) (a b : Nat) : Nat :=
  match op with
  | .Add => a + b
  | .Mul => a * b
  | _ => 0

/-- Inversion for a successful `writeNWordsE`: the result is the written
memory and the value fits in `N_WORDS` words. -/
theorem writeNWordsE_inv (r : ModBuiltinRunner) (m : Memory) (addr : Relocatable)
    (v : Nat) (m'' : Memory) (h : writeNWordsE r m addr v = .ok m'') :
    m'' = (write_n_words_value r m addr v).1 ∧ v < r.shift ^ 4 := by
  unfold writeNWordsE at h
  have herr := write_n_words_err r m addr v
  rcases hw : write_n_words_value r m addr v with ⟨mm, oe⟩
  rw [hw] at h herr
  cases oe with
  | none =>
    have hm : mm = m'' := by simpa using h
    constructor
    · exact hm.symm
    · by_contra hlt
      simp [hlt] at herr
  | some e => exact absurd h (by simp)

/-- Claim C1 (amended): every successful `fill_value` call made by
`fill_memory`'s deduction loop (with the loop's operation pairs
`(Add, Sub)` or `(Mul, DivMod p)`) either found all three operands present —
leaving memory unchanged and the triple unchecked — or deduced the one
missing operand, writing a value `v < p` that satisfies the modular relation
with the two operands it read (`a op b ≡ v`, `a op v ≡ c`, or `v op b ≡ c`
`(mod p)` respectively). -/
theorem fill_value_deduction_sound (r : ModBuiltinRunner) (m m' : Memory)
    (inputs : Inputs) (index : Nat) (op invOp : Operation)
    (hops : (op = .Add ∧ invOp = .Sub) ∨ (op = .Mul ∧ invOp = .DivMod inputs.p))
    (hok : fill_value r m inputs index op invOp = .ok (m', true)) :
    ∃ o0 o1 o2 w0 w1 w2 t0 t1 t2,
      m.getInteger (inputs.offsetsPtr + (3 * index + 0)) = .ok o0 ∧
      m.getInteger (inputs.offsetsPtr + (3 * index + 1)) = .ok o1 ∧
      m.getInteger (inputs.offsetsPtr + (3 * index + 2)) = .ok o2 ∧
      read_n_words_value r m (inputs.valuesPtr + o0) = .ok (w0, t0) ∧
      read_n_words_value r m (inputs.valuesPtr + o1) = .ok (w1, t1) ∧
      read_n_words_value r m (inputs.valuesPtr + o2) = .ok (w2, t2) ∧
      ((∃ a b c, t0 = some a ∧ t1 = some b ∧ t2 = some c ∧ m' = m) ∨
       (∃ a b v, t0 = some a ∧ t1 = some b ∧ t2 = none ∧ v < inputs.p ∧
         opValue op a b % inputs.p = v % inputs.p ∧
         m' = (write_n_words_value r m (inputs.valuesPtr + o2) v).1 ∧
         ∃ ws, read_n_words_value r m' (inputs.valuesPtr + o2) = .ok (ws, some v)) ∨
       (∃ a v c, t0 = some a ∧ t1 = none ∧ t2 = some c ∧ v < inputs.p ∧
         opValue op a v % inputs.p = c % inputs.p ∧
         m' = (write_n_words_value r m (inputs.valuesPtr + o1) v).1 ∧
         ∃ ws, read_n_words_value r m' (inputs.valuesPtr + o1) = .ok (ws, some v)) ∨
       (∃ v b c, t0 = none ∧ t1 = some b ∧ t2 = some c ∧ v < inputs.p ∧
         opValue op v b % inputs.p = c % inputs.p ∧
         m' = (write_n_words_value r m (inputs.valuesPtr + o0) v).1 ∧
         ∃ ws, read_n_words_value r m' (inputs.valuesPtr + o0) = .ok (ws, some v))) := by
  unfold fill_value at hok
  cases ho0 : m.getInteger (inputs.offsetsPtr + (3 * index + 0)) with
  | error e =>
    rw [ho0] at hok
    exact absurd hok (by simp [bind_error_eq])
  | ok o0 =>
  rw [ho0] at hok
  simp only [bind_ok_eq] at hok
  cases hv0 : read_n_words_value r m (inputs.valuesPtr + o0) with
  | error e =>
    rw [hv0] at hok
    exact absurd hok (by simp [bind_error_eq])
  | ok v0 =>
  rw [hv0] at hok
  simp only [bind_ok_eq] at hok
  cases ho1 : m.getInteger (inputs.offsetsPtr + (3 * index + 1)) with
  | error e =>
    rw [ho1] at hok
    exact absurd hok (by simp [bind_error_eq])
  | ok o1 =>
  rw [ho1] at hok
  simp only [bind_ok_eq] at hok
  cases hv1 : read_n_words_value r m (inputs.valuesPtr + o1) with
  | error e =>
    rw [hv1] at hok
    exact absurd hok (by simp [bind_error_eq])
  | ok v1 =>
  rw [hv1] at hok
  simp only [bind_ok_eq] at hok
  cases ho2 : m.getInteger (inputs.offsetsPtr + (3 * index + 2)) with
  | error e =>
    rw [ho2] at hok
    exact absurd hok (by simp [bind_error_eq])
  | ok o2 =>
  rw [ho2] at hok
  simp only [bind_ok_eq] at hok
  cases hv2 : read_n_words_value r m (inputs.valuesPtr + o2) with
  | error e =>
    rw [hv2] at hok
    exact absurd hok (by simp [bind_error_eq])
  | ok v2 =>
  rw [hv2] at hok
  simp only [bind_ok_eq] at hok
  rcases v0 with ⟨w0, t0⟩
  rcases v1 with ⟨w1, t1⟩
  rcases v2 with ⟨w2, t2⟩
  refine ⟨o0, o1, o2, w0, w1, w2, t0, t1, t2, rfl, rfl, rfl, hv0, hv1, hv2, ?_⟩
  rcases t0 with - | a <;> rcases t1 with - | b <;> rcases t2 with - | c
  -- (none, none, none)
  · exact absurd hok (by simp)
  -- (none, none, some c)
  · exact absurd hok (by simp)
  -- (none, some b, none)
  · exact absurd hok (by simp)
  -- (none, some b, some c): deduce a
  · refine Or.inr (Or.inr (Or.inr ?_))
    simp only [] at hok
    rcases hops with ⟨hop, hinv⟩ | ⟨hop, hinv⟩ <;> subst hop <;> subst hinv
    · -- Add / Sub
      simp only [apply_op] at hok
      by_cases hcb : b ≤ c
      · rw [if_pos hcb] at hok
        simp only [bind_ok_eq, mod_floor] at hok
        by_cases hp : inputs.p = 0
        · rw [if_pos hp] at hok
          exact absurd hok (by simp [bind_error_eq])
        · rw [if_neg hp] at hok
          simp only [bind_ok_eq] at hok
          cases hwr : writeNWordsE r m (inputs.valuesPtr + o0) ((c - b) % inputs.p) with
          | error e =>
            rw [hwr] at hok
            exact absurd hok (by simp [bind_error_eq])
          | ok mw =>
            rw [hwr] at hok
            simp only [bind_ok_eq] at hok
            have hm' : mw = m' := by simpa using hok
            obtain ⟨hmem, hfit⟩ := writeNWordsE_inv r m _ _ _ hwr
            have hppos : 0 < inputs.p := Nat.pos_of_ne_zero hp
            refine ⟨(c - b) % inputs.p, b, c, rfl, rfl, rfl, Nat.mod_lt _ hppos, ?_, ?_, ?_⟩
            · have hh := (add_unique_solution b c inputs.p ((c - b) % inputs.p) hp hcb
                (Nat.mod_lt _ hppos)).mpr rfl
              simpa [opValue, Nat.add_comm] using hh
            · rw [← hm', hmem]
            · rw [← hm', hmem]
              obtain ⟨-, hrt⟩ := write_read_n_words_roundtrip r m (inputs.valuesPtr + o0)
                ((c - b) % inputs.p) hfit
              exact ⟨_, hrt⟩
      · rw [if_neg hcb] at hok
        exact absurd hok (by simp [bind_error_eq])
    · -- Mul / DivMod
      simp only [apply_op] at hok
      cases hdm : div_mod_unsigned c b inputs.p with
      | error e =>
        rw [hdm] at hok
        exact absurd hok (by simp [bind_error_eq])
      | ok dv =>
        rw [hdm] at hok
        simp only [bind_ok_eq, mod_floor] at hok
        obtain ⟨hdvlt, hdveq⟩ := div_mod_unsigned_spec c b inputs.p dv hdm
        have hp : inputs.p ≠ 0 := by
          intro h0
          rw [h0] at hdvlt
          omega
        rw [if_neg hp] at hok
        simp only [bind_ok_eq] at hok
        rw [Nat.mod_eq_of_lt hdvlt] at hok
        cases hwr : writeNWordsE r m (inputs.valuesPtr + o0) dv with
        | error e =>
          rw [hwr] at hok
          exact absurd hok (by simp [bind_error_eq])
        | ok mw =>
          rw [hwr] at hok
          simp only [bind_ok_eq] at hok
          have hm' : mw = m' := by simpa using hok
          obtain ⟨hmem, hfit⟩ := writeNWordsE_inv r m _ _ _ hwr
          refine ⟨dv, b, c, rfl, rfl, rfl, hdvlt, ?_, ?_, ?_⟩
          · simpa [opValue, Nat.mul_comm] using hdveq
          · rw [← hm', hmem]
          · rw [← hm', hmem]
            obtain ⟨-, hrt⟩ := write_read_n_words_roundtrip r m (inputs.valuesPtr + o0)
              dv hfit
            exact ⟨_, hrt⟩
  -- (some a, none, none)
  · exact absurd hok (by simp)
  -- (some a, none, some c): deduce b
  · refine Or.inr (Or.inr (Or.inl ?_))
    simp only [] at hok
    rcases hops with ⟨hop, hinv⟩ | ⟨hop, hinv⟩ <;> subst hop <;> subst hinv
    · simp only [apply_op] at hok
      by_cases hca : a ≤ c
      · rw [if_pos hca] at hok
        simp only [bind_ok_eq, mod_floor] at hok
        by_cases hp : inputs.p = 0
        · rw [if_pos hp] at hok
          exact absurd hok (by simp [bind_error_eq])
        · rw [if_neg hp] at hok
          simp only [bind_ok_eq] at hok
          cases hwr : writeNWordsE r m (inputs.valuesPtr + o1) ((c - a) % inputs.p) with
          | error e =>
            rw [hwr] at hok
            exact absurd hok (by simp [bind_error_eq])
          | ok mw =>
            rw [hwr] at hok
            simp only [bind_ok_eq] at hok
            have hm' : mw = m' := by simpa using hok
            obtain ⟨hmem, hfit⟩ := writeNWordsE_inv r m _ _ _ hwr
            have hppos : 0 < inputs.p := Nat.pos_of_ne_zero hp
            refine ⟨a, (c - a) % inputs.p, c, rfl, rfl, rfl, Nat.mod_lt _ hppos, ?_, ?_, ?_⟩
            · have hh := (add_unique_solution a c inputs.p ((c - a) % inputs.p) hp hca
                (Nat.mod_lt _ hppos)).mpr rfl
              simpa [opValue] using hh
            · rw [← hm', hmem]
            · rw [← hm', hmem]
              obtain ⟨-, hrt⟩ := write_read_n_words_roundtrip r m (inputs.valuesPtr + o1)
                ((c - a) % inputs.p) hfit
              exact ⟨_, hrt⟩
      · rw [if_neg hca] at hok
        exact absurd hok (by simp [bind_error_eq])
    · simp only [apply_op] at hok
      cases hdm : div_mod_unsigned c a inputs.p with
      | error e =>
        rw [hdm] at hok
        exact absurd hok (by simp [bind_error_eq])
      | ok dv =>
        rw [hdm] at hok
        simp only [bind_ok_eq, mod_floor] at hok
        obtain ⟨hdvlt, hdveq⟩ := div_mod_unsigned_spec c a inputs.p dv hdm
        have hp : inputs.p ≠ 0 := by
          intro h0
          rw [h0] at hdvlt
          omega
        rw [if_neg hp] at hok
        simp only [bind_ok_eq] at hok
        rw [Nat.mod_eq_of_lt hdvlt] at hok
        cases hwr : writeNWordsE r m (inputs.valuesPtr + o1) dv with
        | error e =>
          rw [hwr] at hok
          exact absurd hok (by simp [bind_error_eq])
        | ok mw =>
          rw [hwr] at hok
          simp only [bind_ok_eq] at hok
          have hm' : mw = m' := by simpa using hok
          obtain ⟨hmem, hfit⟩ := writeNWordsE_inv r m _ _ _ hwr
          refine ⟨a, dv, c, rfl, rfl, rfl, hdvlt, ?_, ?_, ?_⟩
          · simpa [opValue] using hdveq
          · rw [← hm', hmem]
          · rw [← hm', hmem]
            obtain ⟨-, hrt⟩ := write_read_n_words_roundtrip r m (inputs.valuesPtr + o1)
              dv hfit
            exact ⟨_, hrt⟩
  -- (some a, some b, none): deduce c
  · refine Or.inr (Or.inl ?_)
    simp only [] at hok
    have happ : ∀ x y, apply_op x y op = .ok (opValue op x y) := by
      rcases hops with ⟨hop, -⟩ | ⟨hop, -⟩ <;> subst hop <;> intro x y <;> rfl
    rw [happ a b] at hok
    simp only [bind_ok_eq, mod_floor] at hok
    by_cases hp : inputs.p = 0
    · rw [if_pos hp] at hok
      exact absurd hok (by simp [bind_error_eq])
    · rw [if_neg hp] at hok
      simp only [bind_ok_eq] at hok
      cases hwr : writeNWordsE r m (inputs.valuesPtr + o2) (opValue op a b % inputs.p) with
      | error e =>
        rw [hwr] at hok
        exact absurd hok (by simp [bind_error_eq])
      | ok mw =>
        rw [hwr] at hok
        simp only [bind_ok_eq] at hok
        have hm' : mw = m' := by simpa using hok
        obtain ⟨hmem, hfit⟩ := writeNWordsE_inv r m _ _ _ hwr
        have hppos : 0 < inputs.p := Nat.pos_of_ne_zero hp
        refine ⟨a, b, opValue op a b % inputs.p, rfl, rfl, rfl, Nat.mod_lt _ hppos, ?_, ?_, ?_⟩
        · rw [Nat.mod_mod_of_dvd _ (dvd_refl _)]
        · rw [← hm', hmem]
        · rw [← hm', hmem]
          obtain ⟨-, hrt⟩ := write_read_n_words_roundtrip r m (inputs.valuesPtr + o2)
            (opValue op a b % inputs.p) hfit
          exact ⟨_, hrt⟩
  -- (some a, some b, some c): nothing to do
  · refine Or.inl ⟨a, b, c, rfl, rfl, rfl, ?_⟩
    simp only [] at hok
    have hm' : m = m' := by simpa using hok
    exact hm'.symm

/-- Scenario for the C1 counterexample: an `add_mod` instance whose triple
is fully present but inconsistent (`a = 1`, `b = 1`, `c = 5`, `p = 7`). -/
def c1Runner : ModBuiltinRunner := ⟨.Add, 3, 1, 0⟩

/-- Memory for the C1 counterexample scenario: a complete header at
segment 0, offsets `0,4,8` at segment 2, and the three values at segment 1. -/
def c1Memory : Memory :=
  [(⟨0, 0⟩, .int 7), (⟨0, 1⟩, .int 0), (⟨0, 2⟩, .int 0), (⟨0, 3⟩, .int 0),
   (⟨0, 4⟩, .rel ⟨1, 0⟩), (⟨0, 5⟩, .rel ⟨2, 0⟩), (⟨0, 6⟩, .int 1),
   (⟨2, 0⟩, .int 0), (⟨2, 1⟩, .int 4), (⟨2, 2⟩, .int 8),
   (⟨1, 0⟩, .int 1), (⟨1, 1⟩, .int 0), (⟨1, 2⟩, .int 0), (⟨1, 3⟩, .int 0),
   (⟨1, 4⟩, .int 1), (⟨1, 5⟩, .int 0), (⟨1, 6⟩, .int 0), (⟨1, 7⟩, .int 0),
   (⟨1, 8⟩, .int 5), (⟨1, 9⟩, .int 0), (⟨1, 10⟩, .int 0), (⟨1, 11⟩, .int 0)]

theorem c1_read_inputs_eq :
    read_inputs c1Runner c1Memory ⟨0, 0⟩ =
      .ok ⟨7, [7, 0, 0, 0], ⟨1, 0⟩, ⟨2, 0⟩, 1⟩ := by
  simp [c1Runner, c1Memory, read_inputs, read_n_words_value, readNWordsGo,
    Memory.get, Memory.getInteger, Memory.getRelocatable, Memory.getUsize,
    Relocatable.add_def, ModBuiltinRunner.shift, N_WORDS,
    VALUES_PTR_OFFSET, OFFSETS_PTR_OFFSET, N_OFFSET, bind_ok_eq]

theorem c1_fill_inputs_eq :
    fill_inputs c1Runner c1Memory ⟨0, 0⟩ ⟨7, [7, 0, 0, 0], ⟨1, 0⟩, ⟨2, 0⟩, 1⟩ =
      .ok c1Memory := by
  unfold fill_inputs
  rw [if_neg (by decide)]
  have hsd : safe_div_usize 1 c1Runner.batchSize = .ok 1 := by
    simp [safe_div_usize, c1Runner]
  rw [hsd]
  simp only [bind_ok_eq]
  rw [fillInputsGo]
  simp

theorem c1_fill_offsets_eq :
    fill_offsets c1Memory ⟨2, 0⟩ 1 0 = .ok c1Memory := by
  simp [fill_offsets]

theorem c1_fill_value_eq :
    fill_value c1Runner c1Memory ⟨7, [7, 0, 0, 0], ⟨1, 0⟩, ⟨2, 0⟩, 1⟩ 0 .Add .Sub =
      .ok (c1Memory, true) := by
  simp [c1Runner, c1Memory, fill_value, read_n_words_value, readNWordsGo,
    Memory.get, Memory.getInteger, Relocatable.add_def, ModBuiltinRunner.shift,
    N_WORDS, bind_ok_eq]

theorem c1_loop_eq (mulInputs : Inputs) (dop : Operation) :
    fillMemoryLoop c1Runner ⟨7, [7, 0, 0, 0], ⟨1, 0⟩, ⟨2, 0⟩, 1⟩ mulInputs 1 0 dop
      c1Memory 0 0 = .ok (c1Memory, 1) := by
  rw [fillMemoryLoop]
  simp [fillMemoryLoop, c1_fill_value_eq, bind_ok_eq]

/-- Claim C1 counterexample: `fill_memory` returns `Ok` on a memory whose
only triple is fully present but violates `a + b ≡ c (mod p)`
(`1 + 1 ≢ 5 (mod 7)`): deduction never checks complete triples. -/
theorem fill_memory_passes_inconsistent_triple :
    fill_memory c1Memory (some (⟨0, 0⟩, c1Runner, 1)) none = .ok c1Memory ∧
    read_memory_vars c1Runner c1Memory ⟨1, 0⟩ ⟨2, 0⟩ 0 = .ok (1, 1, 5) ∧
    ¬ ((1 + 1) % 7 = 5 % 7) := by
  refine ⟨?_, ?_, by decide⟩
  · simp [fill_memory, fillMemoryCore, c1_read_inputs_eq, c1_fill_inputs_eq,
      c1_fill_offsets_eq, c1_loop_eq, bind_ok_eq]
  · simp [c1Runner, c1Memory, read_memory_vars, computeValue, read_n_words_value,
      readNWordsGo, Memory.get, Memory.getUsize, Memory.getInteger,
      Relocatable.add_def, ModBuiltinRunner.shift, N_WORDS, bind_ok_eq]

/-- Memory for the C1 witness scenario: `a = 5`, `b = 6` present, `c`
missing, offsets `0, 4, 8`. -/
def c1WitnessMemory : Memory :=
  [(⟨2, 0⟩, .int 0), (⟨2, 1⟩, .int 4), (⟨2, 2⟩, .int 8),
   (⟨1, 0⟩, .int 5), (⟨1, 1⟩, .int 0), (⟨1, 2⟩, .int 0), (⟨1, 3⟩, .int 0),
   (⟨1, 4⟩, .int 6), (⟨1, 5⟩, .int 0), (⟨1, 6⟩, .int 0), (⟨1, 7⟩, .int 0)]

theorem fill_value_deduction_sound_witness :
    ∃ o0 o1 o2 w0 w1 w2 t0 t1 t2,
      Memory.getInteger c1WitnessMemory ((⟨2, 0⟩ : Relocatable) + (3 * 0 + 0)) = .ok o0 ∧
      Memory.getInteger c1WitnessMemory ((⟨2, 0⟩ : Relocatable) + (3 * 0 + 1)) = .ok o1 ∧
      Memory.getInteger c1WitnessMemory ((⟨2, 0⟩ : Relocatable) + (3 * 0 + 2)) = .ok o2 ∧
      read_n_words_value c1Runner c1WitnessMemory ((⟨1, 0⟩ : Relocatable) + o0) =
        .ok (w0, t0) ∧
      read_n_words_value c1Runner c1WitnessMemory ((⟨1, 0⟩ : Relocatable) + o1) =
        .ok (w1, t1) ∧
      read_n_words_value c1Runner c1WitnessMemory ((⟨1, 0⟩ : Relocatable) + o2) =
        .ok (w2, t2) ∧
      ((∃ a b c, t0 = some a ∧ t1 = some b ∧ t2 = some c ∧
         (write_n_words_value c1Runner c1WitnessMemory
           ((⟨1, 0⟩ : Relocatable) + (8 : Nat)) ((5 + 6) % 7)).1 = c1WitnessMemory) ∨
       (∃ a b v, t0 = some a ∧ t1 = some b ∧ t2 = none ∧ v < 7 ∧
         opValue .Add a b % 7 = v % 7 ∧
         (write_n_words_value c1Runner c1WitnessMemory
           ((⟨1, 0⟩ : Relocatable) + (8 : Nat)) ((5 + 6) % 7)).1 =
           (write_n_words_value c1Runner c1WitnessMemory
             ((⟨1, 0⟩ : Relocatable) + o2) v).1 ∧
         ∃ ws, read_n_words_value c1Runner
           (write_n_words_value c1Runner c1WitnessMemory
             ((⟨1, 0⟩ : Relocatable) + (8 : Nat)) ((5 + 6) % 7)).1
           ((⟨1, 0⟩ : Relocatable) + o2) = .ok (ws, some v)) ∨
       (∃ a v c, t0 = some a ∧ t1 = none ∧ t2 = some c ∧ v < 7 ∧
         opValue .Add a v % 7 = c % 7 ∧
         (write_n_words_value c1Runner c1WitnessMemory
           ((⟨1, 0⟩ : Relocatable) + (8 : Nat)) ((5 + 6) % 7)).1 =
           (write_n_words_value c1Runner c1WitnessMemory
             ((⟨1, 0⟩ : Relocatable) + o1) v).1 ∧
         ∃ ws, read_n_words_value c1Runner
           (write_n_words_value c1Runner c1WitnessMemory
             ((⟨1, 0⟩ : Relocatable) + (8 : Nat)) ((5 + 6) % 7)).1
           ((⟨1, 0⟩ : Relocatable) + o1) = .ok (ws, some v)) ∨
       (∃ v b c, t0 = none ∧ t1 = some b ∧ t2 = some c ∧ v < 7 ∧
         opValue .Add v b % 7 = c % 7 ∧
         (write_n_words_value c1Runner c1WitnessMemory
           ((⟨1, 0⟩ : Relocatable) + (8 : Nat)) ((5 + 6) % 7)).1 =
           (write_n_words_value c1Runner c1WitnessMemory
             ((⟨1, 0⟩ : Relocatable) + o0) v).1 ∧
         ∃ ws, read_n_words_value c1Runner
           (write_n_words_value c1Runner c1WitnessMemory
             ((⟨1, 0⟩ : Relocatable) + (8 : Nat)) ((5 + 6) % 7)).1
           ((⟨1, 0⟩ : Relocatable) + o0) = .ok (ws, some v))) := by
  have hok : fill_value c1Runner c1WitnessMemory ⟨7, [7, 0, 0, 0], ⟨1, 0⟩, ⟨2, 0⟩, 1⟩
      0 .Add .Sub =
      .ok ((write_n_words_value c1Runner c1WitnessMemory
        ((⟨1, 0⟩ : Relocatable) + (8 : Nat)) ((5 + 6) % 7)).1, true) := by
    simp [c1Runner, c1WitnessMemory, fill_value, read_n_words_value, readNWordsGo,
      Memory.get, Memory.getInteger, Relocatable.add_def, ModBuiltinRunner.shift,
      N_WORDS, apply_op, mod_floor, bind_ok_eq, writeNWordsE,
      write_n_words_value, writeNWordsGo, Memory.insertAsAccessed]
  exact fill_value_deduction_sound c1Runner c1WitnessMemory _
    ⟨7, [7, 0, 0, 0], ⟨1, 0⟩, ⟨2, 0⟩, 1⟩ 0 .Add .Sub (Or.inl ⟨rfl, rfl⟩) hok

/-! Error shapes: none of the functions `fill_value` calls can raise
`FillMemoryCoudNotFillTable`; only the loop itself does. -/

theorem getInteger_err_shape (m : Memory) (a : Relocatable) (e : RunnerError)
    (h : m.getInteger a = .error e) :
    e = .ExpectedInteger a ∨ e = .UnknownMemoryCell a := by
  unfold Memory.getInteger at h
  cases hg : m.get a with
  | none =>
    rw [hg] at h
    exact Or.inr (Except.error.inj h).symm
  | some v =>
    rw [hg] at h
    cases v with
    | int w => exact absurd h (by simp)
    | rel rr => exact Or.inl (Except.error.inj h).symm

theorem readNWordsGo_err_shape (r : ModBuiltinRunner) (m : Memory) (addr : Relocatable) :
    ∀ f i words value e, f = N_WORDS - i →
    readNWordsGo r m addr i words value = .error e →
    (∃ x, e = .ExpectedInteger x) ∨ (∃ x bl w, e = .WordExceedsModBuiltinWordBitLen x bl w) := by
  intro f
  induction f with
  | zero =>
    intro i words value e hf h
    rw [readNWordsGo_done r m addr i words value (by omega)] at h
    exact absurd h (by simp)
  | succ f ih =>
    intro i words value e hf h
    by_cases hi : i < N_WORDS
    · cases hg : m.get (addr + i) with
      | none =>
        rw [readNWordsGo_none r m addr i words value hi hg] at h
        exact absurd h (by simp)
      | some v =>
        cases v with
        | rel rr =>
          rw [readNWordsGo_rel r m addr i words value hi rr hg] at h
          exact Or.inl ⟨addr + i, (Except.error.inj h).symm⟩
        | int w =>
          by_cases hw : r.shift ≤ w
          · rw [readNWordsGo_big r m addr i words value hi w hg hw] at h
            exact Or.inr ⟨addr + i, r.wordBitLen, w, (Except.error.inj h).symm⟩
          · rw [readNWordsGo_int r m addr i words value hi w hg (by omega)] at h
            exact ih (i + 1) _ _ e (by omega) h
    · rw [readNWordsGo_done r m addr i words value hi] at h
      exact absurd h (by simp)

theorem read_n_words_err_shape (r : ModBuiltinRunner) (m : Memory) (addr : Relocatable)
    (e : RunnerError) (h : read_n_words_value r m addr = .error e) :
    (∃ x, e = .ExpectedInteger x) ∨ (∃ x bl w, e = .WordExceedsModBuiltinWordBitLen x bl w) :=
  readNWordsGo_err_shape r m addr (N_WORDS - 0) 0 _ 0 e rfl h

theorem apply_op_err_shape (lhs rhs : Nat) (op : Operation) (e : RunnerError)
    (h : apply_op lhs rhs op = .error e) :
    e = .PanicSubUnderflow ∨ e = .DividedByZero := by
  cases op with
  | Mul => exact absurd h (by simp [apply_op])
  | Add => exact absurd h (by simp [apply_op])
  | Sub =>
    unfold apply_op at h
    by_cases hle : rhs ≤ lhs
    · rw [if_pos hle] at h
      exact absurd h (by simp)
    · rw [if_neg hle] at h
      exact Or.inl (Except.error.inj h).symm
  | DivMod p =>
    unfold apply_op div_mod_unsigned at h
    simp only [] at h
    by_cases hc : p ≠ 0 ∧ Nat.gcd rhs p = 1
    · rw [if_pos hc] at h
      exact absurd h (by simp)
    · rw [if_neg hc] at h
      exact Or.inr (Except.error.inj h).symm

theorem mod_floor_err_shape (a p : Nat) (e : RunnerError)
    (h : mod_floor a p = .error e) : e = .PanicModZero := by
  unfold mod_floor at h
  by_cases hp : p = 0
  · rw [if_pos hp] at h
    exact (Except.error.inj h).symm
  · rw [if_neg hp] at h
    exact absurd h (by simp)

theorem writeNWordsE_err_shape (r : ModBuiltinRunner) (m : Memory) (addr : Relocatable)
    (v : Nat) (e : RunnerError) (h : writeNWordsE r m addr v = .error e) :
    e = .WriteNWordsValueNotZero r.name := by
  unfold writeNWordsE at h
  rcases hw : write_n_words_value r m addr v with ⟨mm, oe⟩
  rw [hw] at h
  cases oe with
  | none => exact absurd h (by simp)
  | some e' =>
    have herr := write_n_words_err r m addr v
    rw [hw] at herr
    by_cases hv : v < r.shift ^ 4
    · simp [hv] at herr
    · simp only [hv, if_neg, if_false] at herr
      have he' : e' = .WriteNWordsValueNotZero r.name := by simpa using herr
      have : e = e' := (Except.error.inj h).symm
      rw [this, he']

/-- `fill_value` never raises `FillMemoryCoudNotFillTable`: the loop alone
produces that error. -/
theorem fill_value_no_table_error (r : ModBuiltinRunner) (m : Memory) (inputs : Inputs)
    (index : Nat) (op invOp : Operation) (ai mi : Nat) :
    fill_value r m inputs index op invOp ≠
      .error (.FillMemoryCoudNotFillTable ai mi) := by
  intro hok
  unfold fill_value at hok
  cases ho0 : m.getInteger (inputs.offsetsPtr + (3 * index + 0)) with
  | error e =>
    rw [ho0] at hok
    simp only [bind_error_eq] at hok
    have := (Except.error.inj hok)
    rcases getInteger_err_shape m _ e ho0 with h | h <;> simp [h] at this
  | ok o0 =>
  rw [ho0] at hok
  simp only [bind_ok_eq] at hok
  cases hv0 : read_n_words_value r m (inputs.valuesPtr + o0) with
  | error e =>
    rw [hv0] at hok
    simp only [bind_error_eq] at hok
    have := (Except.error.inj hok)
    rcases read_n_words_err_shape r m _ e hv0 with ⟨x, h⟩ | ⟨x, bl, w, h⟩ <;>
      simp [h] at this
  | ok v0 =>
  rw [hv0] at hok
  simp only [bind_ok_eq] at hok
  cases ho1 : m.getInteger (inputs.offsetsPtr + (3 * index + 1)) with
  | error e =>
    rw [ho1] at hok
    simp only [bind_error_eq] at hok
    have := (Except.error.inj hok)
    rcases getInteger_err_shape m _ e ho1 with h | h <;> simp [h] at this
  | ok o1 =>
  rw [ho1] at hok
  simp only [bind_ok_eq] at hok
  cases hv1 : read_n_words_value r m (inputs.valuesPtr + o1) with
  | error e =>
    rw [hv1] at hok
    simp only [bind_error_eq] at hok
    have := (Except.error.inj hok)
    rcases read_n_words_err_shape r m _ e hv1 with ⟨x, h⟩ | ⟨x, bl, w, h⟩ <;>
      simp [h] at this
  | ok v1 =>
  rw [hv1] at hok
  simp only [bind_ok_eq] at hok
  cases ho2 : m.getInteger (inputs.offsetsPtr + (3 * index + 2)) with
  | error e =>
    rw [ho2] at hok
    simp only [bind_error_eq] at hok
    have := (Except.error.inj hok)
    rcases getInteger_err_shape m _ e ho2 with h | h <;> simp [h] at this
  | ok o2 =>
  rw [ho2] at hok
  simp only [bind_ok_eq] at hok
  cases hv2 : read_n_words_value r m (inputs.valuesPtr + o2) with
  | error e =>
    rw [hv2] at hok
    simp only [bind_error_eq] at hok
    have := (Except.error.inj hok)
    rcases read_n_words_err_shape r m _ e hv2 with ⟨x, h⟩ | ⟨x, bl, w, h⟩ <;>
      simp [h] at this
  | ok v2 =>
  rw [hv2] at hok
  simp only [bind_ok_eq] at hok
  have harm : ∀ (tgt : Relocatable) (x y : Nat) (o : Operation),
      (do
        let t ← apply_op x y o
        let value ← mod_floor t inputs.p
        let m' ← writeNWordsE r m tgt value
        Except.ok (m', true) : Except RunnerError (Memory × Bool)) ≠
        .error (.FillMemoryCoudNotFillTable ai mi) := by
    intro tgt x y o hc
    cases happ : apply_op x y o with
    | error e =>
      rw [happ] at hc
      simp only [bind_error_eq] at hc
      have := (Except.error.inj hc)
      rcases apply_op_err_shape x y o e happ with h | h <;> simp [h] at this
    | ok t =>
      rw [happ] at hc
      simp only [bind_ok_eq] at hc
      cases hmf : mod_floor t inputs.p with
      | error e =>
        rw [hmf] at hc
        simp only [bind_error_eq] at hc
        have := (Except.error.inj hc)
        have h := mod_floor_err_shape t inputs.p e hmf
        simp [h] at this
      | ok value =>
        rw [hmf] at hc
        simp only [bind_ok_eq] at hc
        cases hwr : writeNWordsE r m tgt value with
        | error e =>
          rw [hwr] at hc
          simp only [bind_error_eq] at hc
          have := (Except.error.inj hc)
          have h := writeNWordsE_err_shape r m tgt value e hwr
          simp [h] at this
        | ok mw =>
          rw [hwr] at hc
          simp only [bind_ok_eq] at hc
          exact absurd hc (by simp)
  rcases v0 with ⟨w0, t0⟩
  rcases v1 with ⟨w1, t1⟩
  rcases v2 with ⟨w2, t2⟩
  rcases t0 with - | a <;> rcases t1 with - | b <;> rcases t2 with - | c <;>
    simp only [] at hok
  · exact absurd hok (by simp)
  · exact absurd hok (by simp)
  · exact absurd hok (by simp)
  · exact harm _ c b invOp hok
  · exact absurd hok (by simp)
  · exact harm _ c a invOp hok
  · exact harm _ a b op hok
  · exact absurd hok (by simp)

/-- The induction behind the termination bound: from cursors
`(addIdx, mulIdx)` within bounds, the loop makes at most
`(addN − addIdx) + (mulN − mulIdx)` successful advances, and a
`FillMemoryCoudNotFillTable` failure reports cursors within bounds. -/
theorem fillMemoryLoop_bound_aux (r : ModBuiltinRunner) (addInputs mulInputs : Inputs)
    (addN mulN : Nat) (divOp : Operation) :
    ∀ f (m : Memory) addIdx mulIdx, f = (addN - addIdx) + (mulN - mulIdx) →
    addIdx ≤ addN → mulIdx ≤ mulN →
    (∀ m' cnt, fillMemoryLoop r addInputs mulInputs addN mulN divOp m addIdx mulIdx =
        .ok (m', cnt) → cnt ≤ (addN - addIdx) + (mulN - mulIdx)) ∧
    (∀ ai mi, fillMemoryLoop r addInputs mulInputs addN mulN divOp m addIdx mulIdx =
        .error (.FillMemoryCoudNotFillTable ai mi) → ai ≤ addN ∧ mi ≤ mulN) := by
  intro f
  induction f with
  | zero =>
    intro m addIdx mulIdx hf h1 h2
    have hrun : ¬ (addIdx < addN ∨ mulIdx < mulN) := by omega
    rw [fillMemoryLoop]
    simp only [dif_neg hrun]
    constructor
    · intro m' cnt hok
      have hc : (m, 0) = (m', cnt) := Except.ok.inj hok
      rw [Prod.mk.injEq] at hc
      obtain ⟨-, hc2⟩ := hc
      omega
    · intro ai mi he
      exact absurd he (by simp)
  | succ f ih =>
    intro m addIdx mulIdx hf h1 h2
    by_cases hrun : addIdx < addN ∨ mulIdx < mulN
    · rw [fillMemoryLoop]
      simp only [dif_pos hrun]
      -- the add side
      by_cases ha : addIdx < addN
      · rw [if_pos ha]
        cases hfv : fill_value r m addInputs addIdx .Add .Sub with
        | error e =>
          constructor
          · intro m' cnt hok
            exact absurd hok (by simp)
          · intro ai mi he
            have : e = .FillMemoryCoudNotFillTable ai mi := by simpa using he
            exact absurd (this ▸ hfv) (fill_value_no_table_error r m addInputs addIdx
              .Add .Sub ai mi)
        | ok res =>
          rcases res with ⟨m1, fb⟩
          by_cases hb : fb = true
          · simp only [dif_pos (⟨ha, hb⟩ : addIdx < addN ∧ (m1, fb).2 = true)]
            obtain ⟨ihok, iherr⟩ := ih m1 (addIdx + 1) mulIdx (by omega) (by omega) h2
            cases hrec : fillMemoryLoop r addInputs mulInputs addN mulN divOp m1
                (addIdx + 1) mulIdx with
            | error e =>
              constructor
              · intro m' cnt hok
                exact absurd hok (by simp)
              · intro ai mi he
                have : e = .FillMemoryCoudNotFillTable ai mi := by simpa using he
                exact iherr ai mi (this ▸ hrec)
            | ok res' =>
              constructor
              · intro m' cnt hok
                have hc : (res'.1, res'.2 + 1) = (m', cnt) := by simpa using hok
                rw [Prod.mk.injEq] at hc
                obtain ⟨-, hc2⟩ := hc
                have := ihok res'.1 res'.2 (by rw [hrec])
                omega
              · intro ai mi he
                exact absurd he (by simp)
          · simp only [dif_neg (fun hcon : addIdx < addN ∧ (m1, fb).2 = true => hb hcon.2)]
            -- the mul side, with memory m1
            by_cases hm : mulIdx < mulN
            · rw [if_pos hm]
              cases hfv2 : fill_value r m1 mulInputs mulIdx .Mul divOp with
              | error e =>
                constructor
                · intro m' cnt hok
                  exact absurd hok (by simp)
                · intro ai mi he
                  have : e = .FillMemoryCoudNotFillTable ai mi := by simpa using he
                  exact absurd (this ▸ hfv2) (fill_value_no_table_error r m1 mulInputs
                    mulIdx .Mul divOp ai mi)
              | ok res2 =>
                rcases res2 with ⟨m2, fb2⟩
                by_cases hb2 : fb2 = true
                · simp only [dif_pos (⟨hm, hb2⟩ : mulIdx < mulN ∧ (m2, fb2).2 = true)]
                  obtain ⟨ihok, iherr⟩ := ih m2 addIdx (mulIdx + 1) (by omega) h1 (by omega)
                  cases hrec : fillMemoryLoop r addInputs mulInputs addN mulN divOp m2
                      addIdx (mulIdx + 1) with
                  | error e =>
                    constructor
                    · intro m' cnt hok
                      exact absurd hok (by simp)
                    · intro ai mi he
                      have : e = .FillMemoryCoudNotFillTable ai mi := by simpa using he
                      exact iherr ai mi (this ▸ hrec)
                  | ok res' =>
                    constructor
                    · intro m' cnt hok
                      have hc : (res'.1, res'.2 + 1) = (m', cnt) := by simpa using hok
                      have hcnt : cnt = res'.2 + 1 := ((Prod.mk.injEq _ _ _ _ ▸ hc).2).symm
                      have := ihok res'.1 res'.2 (by rw [hrec])
                      omega
                    · intro ai mi he
                      exact absurd he (by simp)
                · simp only [dif_neg (fun hcon : mulIdx < mulN ∧ (m2, fb2).2 = true => hb2 hcon.2)]
                  constructor
                  · intro m' cnt hok
                    exact absurd hok (by simp)
                  · intro ai mi he
                    have hc : RunnerError.FillMemoryCoudNotFillTable addIdx mulIdx =
                        .FillMemoryCoudNotFillTable ai mi := by simpa using he
                    have := RunnerError.FillMemoryCoudNotFillTable.injEq addIdx mulIdx ai mi ▸ hc
                    simp only [RunnerError.FillMemoryCoudNotFillTable.injEq] at hc
                    omega
            · rw [if_neg hm]
              simp only [dif_neg (fun hcon : mulIdx < mulN ∧ _ => hm hcon.1)]
              constructor
              · intro m' cnt hok
                exact absurd hok (by simp)
              · intro ai mi he
                have he' := (Except.error.inj he)
                simp only [RunnerError.FillMemoryCoudNotFillTable.injEq] at he'
                omega
      · rw [if_neg ha]
        simp only [dif_neg (fun hcon : addIdx < addN ∧ _ => ha hcon.1)]
        by_cases hm : mulIdx < mulN
        · rw [if_pos hm]
          cases hfv2 : fill_value r m mulInputs mulIdx .Mul divOp with
          | error e =>
            constructor
            · intro m' cnt hok
              exact absurd hok (by simp)
            · intro ai mi he
              have : e = .FillMemoryCoudNotFillTable ai mi := by simpa using he
              exact absurd (this ▸ hfv2) (fill_value_no_table_error r m mulInputs
                mulIdx .Mul divOp ai mi)
          | ok res2 =>
            rcases res2 with ⟨m2, fb2⟩
            by_cases hb2 : fb2 = true
            · simp only [dif_pos (⟨hm, hb2⟩ : mulIdx < mulN ∧ (m2, fb2).2 = true)]
              obtain ⟨ihok, iherr⟩ := ih m2 addIdx (mulIdx + 1) (by omega) h1 (by omega)
              cases hrec : fillMemoryLoop r addInputs mulInputs addN mulN divOp m2
                  addIdx (mulIdx + 1) with
              | error e =>
                constructor
                · intro m' cnt hok
                  exact absurd hok (by simp)
                · intro ai mi he
                  have : e = .FillMemoryCoudNotFillTable ai mi := by simpa using he
                  exact iherr ai mi (this ▸ hrec)
              | ok res' =>
                constructor
                · intro m' cnt hok
                  have hc : (res'.1, res'.2 + 1) = (m', cnt) := by simpa using hok
                  rw [Prod.mk.injEq] at hc
                  obtain ⟨-, hc2⟩ := hc
                  have := ihok res'.1 res'.2 (by rw [hrec])
                  omega
                · intro ai mi he
                  exact absurd he (by simp)
            · simp only [dif_neg (fun hcon : mulIdx < mulN ∧ (m2, fb2).2 = true => hb2 hcon.2)]
              constructor
              · intro m' cnt hok
                exact absurd hok (by simp)
              · intro ai mi he
                have he' := (Except.error.inj he)
                simp only [RunnerError.FillMemoryCoudNotFillTable.injEq] at he'
                omega
        · omega
    · rw [fillMemoryLoop]
      simp only [dif_neg hrun]
      constructor
      · intro m' cnt hok
        have hc : (m, 0) = (m', cnt) := Except.ok.inj hok
        rw [Prod.mk.injEq] at hc
        obtain ⟨-, hc2⟩ := hc
        omega
      · intro ai mi he
        exact absurd he (by simp)

/-- Claim C8: the deduction loop of `fill_memory` terminates in at most
`add_mod_n + mul_mod_n` successful advances: started at cursors `(0,0)`, a
successful run's advance count is at most `addN + mulN`, and when it stops
with `FillMemoryCoudNotFillTable(add_mod_idx, mul_mod_idx)` the reported
cursors never exceed their targets. -/
theorem fill_memory_loop_termination_bound (r : ModBuiltinRunner)
    (addInputs mulInputs : Inputs) (addN mulN : Nat) (divOp : Operation) (m : Memory) :
    (∀ m' cnt, fillMemoryLoop r addInputs mulInputs addN mulN divOp m 0 0 =
        .ok (m', cnt) → cnt ≤ addN + mulN) ∧
    (∀ ai mi, fillMemoryLoop r addInputs mulInputs addN mulN divOp m 0 0 =
        .error (.FillMemoryCoudNotFillTable ai mi) → ai ≤ addN ∧ mi ≤ mulN) := by
  obtain ⟨hok, herr⟩ := fillMemoryLoop_bound_aux r addInputs mulInputs addN mulN divOp
    ((addN - 0) + (mulN - 0)) m 0 0 rfl (Nat.zero_le _) (Nat.zero_le _)
  constructor
  · intro m' cnt h
    have := hok m' cnt h
    omega
  · exact herr

theorem fill_memory_loop_termination_bound_witness :
    fillMemoryLoop c1Runner ⟨7, [7, 0, 0, 0], ⟨1, 0⟩, ⟨2, 0⟩, 1⟩ default 1 0
      (.DivMod 0) c1Memory 0 0 = .ok (c1Memory, 1) ∧ 1 ≤ 1 + 0 := by
  have heq := c1_loop_eq (default : Inputs) (.DivMod 0)
  exact ⟨heq, (fill_memory_loop_termination_bound c1Runner
    ⟨7, [7, 0, 0, 0], ⟨1, 0⟩, ⟨2, 0⟩, 1⟩ default 1 0 (.DivMod 0) c1Memory).1
    c1Memory 1 heq⟩

/-! `run_additional_security_checks` characterization. -/

/-- The four cross-instance header invariants, as checked between
consecutive instances when the previous count exceeds the batch size. -/
def headersOkProp (r : ModBuiltinRunner) (prev cur : Inputs) : Prop :=
  r.batchSize < prev.n →
    ((∀ i, i < N_WORDS → cur.pValues.getD i 0 = prev.pValues.getD i 0) ∧
     cur.valuesPtr = prev.valuesPtr ∧
     cur.offsetsPtr = prev.offsetsPtr + 3 * r.batchSize ∧
     cur.n = prev.n - r.batchSize)

/-- A triple passes the per-batch algebraic check: it reads successfully and
satisfies `a op b ≡ c (mod p)` (with a nonzero modulus, so that the Rust
`mod_floor` does not panic). -/
def tripleOkProp (r : ModBuiltinRunner) (m : Memory) (inputs : Inputs) (idx : Nat) : Prop :=
  ∃ a b c, read_memory_vars r m inputs.valuesPtr inputs.offsetsPtr idx = .ok (a, b, c) ∧
    inputs.p ≠ 0 ∧ opValue r.securityOp a b % inputs.p = c % inputs.p

theorem apply_op_securityOp (r : ModBuiltinRunner) (x y : Nat) :
    apply_op x y r.securityOp = .ok (opValue r.securityOp x y) := by
  cases hb : r.builtinType <;> simp [ModBuiltinRunner.securityOp, apply_op, opValue, hb]

theorem checkPValuesGo_ok (name : String) (cur prev : List Nat)
    (h : ∀ i, i < N_WORDS → cur.getD i 0 = prev.getD i 0) :
    ∀ f i0, f = N_WORDS - i0 → checkPValuesGo name cur prev i0 = .ok () := by
  intro f
  induction f with
  | zero =>
    intro i0 hf
    rw [checkPValuesGo]
    simp only [dif_neg (by omega : ¬ i0 < N_WORDS)]
  | succ f ih =>
    intro i0 hf
    have hi : i0 < N_WORDS := by omega
    rw [checkPValuesGo]
    simp only [dif_pos hi]
    rw [if_neg (by simpa using h i0 hi)]
    exact ih (i0 + 1) (by omega)

theorem checkHeaders_ok (r : ModBuiltinRunner) (prev cur : Inputs)
    (hpv : ∀ i, i < N_WORDS → cur.pValues.getD i 0 = prev.pValues.getD i 0)
    (hvp : cur.valuesPtr = prev.valuesPtr)
    (hop : cur.offsetsPtr = prev.offsetsPtr + 3 * r.batchSize)
    (hn : cur.n = prev.n - r.batchSize) :
    checkHeaders r prev cur = .ok () := by
  unfold checkHeaders
  rw [checkPValuesGo_ok r.name cur.pValues prev.pValues hpv (N_WORDS - 0) 0 rfl]
  simp only [bind_ok_eq]
  rw [if_neg (by simp [hvp]), if_neg (by simp [hop]), if_neg (by simp [hn])]

theorem secBatchGo_ok (r : ModBuiltinRunner) (m : Memory) (inputs : Inputs) (inst : Nat) :
    ∀ f j0, f = r.batchSize - j0 →
    (∀ j, j0 ≤ j → j < r.batchSize → tripleOkProp r m inputs j) →
    secBatchGo r m inputs inst j0 = .ok () := by
  intro f
  induction f with
  | zero =>
    intro j0 hf htr
    rw [secBatchGo]
    simp only [dif_neg (by omega : ¬ j0 < r.batchSize)]
  | succ f ih =>
    intro j0 hf htr
    have hj : j0 < r.batchSize := by omega
    obtain ⟨a, b, c, hrd, hp0, hrel⟩ := htr j0 (le_refl j0) hj
    rw [secBatchGo]
    simp only [dif_pos hj]
    rw [hrd]
    simp only [bind_ok_eq, apply_op_securityOp, mod_floor, if_neg hp0]
    rw [if_neg (by simpa using hrel)]
    exact ih (j0 + 1) (by omega) (fun j h1 h2 => htr j (by omega) h2)

theorem secBatchGo_fail (r : ModBuiltinRunner) (m : Memory) (inputs : Inputs) (inst : Nat)
    (jf : Nat) (a b c : Nat) (hjf : jf < r.batchSize)
    (hrd : read_memory_vars r m inputs.valuesPtr inputs.offsetsPtr jf = .ok (a, b, c))
    (hp0 : inputs.p ≠ 0)
    (hrel : opValue r.securityOp a b % inputs.p ≠ c % inputs.p) :
    ∀ f j0, f = r.batchSize - j0 → j0 ≤ jf →
    (∀ j, j0 ≤ j → j < jf → tripleOkProp r m inputs j) →
    secBatchGo r m inputs inst j0 =
      .error (.ModBuiltinSecurityCheck r.name
        (.tripleFailed inst jf inputs.p a b c)) := by
  intro f
  induction f with
  | zero =>
    intro j0 hf hle htr
    omega
  | succ f ih =>
    intro j0 hf hle htr
    have hj : j0 < r.batchSize := by omega
    rw [secBatchGo]
    simp only [dif_pos hj]
    rcases Nat.eq_or_lt_of_le hle with heq | hlt
    · subst heq
      rw [hrd]
      simp only [bind_ok_eq, apply_op_securityOp, mod_floor, if_neg hp0]
      rw [if_pos (by simpa using hrel)]
    · obtain ⟨a', b', c', hrd', hp0', hrel'⟩ := htr j0 (le_refl j0) hlt
      rw [hrd']
      simp only [bind_ok_eq, apply_op_securityOp, mod_floor, if_neg hp0']
      rw [if_neg (by simpa using hrel')]
      exact ih (j0 + 1) (by omega) hlt (fun j h1 h2 => htr j (by omega) h2)

theorem secInstGo_ok (r : ModBuiltinRunner) (m : Memory) (I : Nat → Inputs) :
    ∀ f k nInst (prev : Inputs), f = nInst - k → k ≤ nInst →
    (∀ j, k ≤ j → j < nInst → read_inputs r m ⟨r.base, j * INPUT_CELLS⟩ = .ok (I j)) →
    (∀ j, k ≤ j → j + 1 < nInst → headersOkProp r (I j) (I (j + 1))) →
    (k ≠ 0 → k < nInst → headersOkProp r prev (I k)) →
    (∀ j, k ≤ j → j < nInst → ∀ idx, idx < r.batchSize → tripleOkProp r m (I j) idx) →
    secInstGo r m k nInst prev = .ok (if k < nInst then I (nInst - 1) else prev) := by
  intro f
  induction f with
  | zero =>
    intro k nInst prev hf hk hread hhead hlink htr
    rw [secInstGo]
    simp only [dif_neg (by omega : ¬ k < nInst)]
    rw [if_neg (by omega : ¬ k < nInst)]
  | succ f ih =>
    intro k nInst prev hf hk hread hhead hlink htr
    have hklt : k < nInst := by omega
    rw [secInstGo]
    simp only [dif_pos hklt]
    rw [hread k (le_refl k) hklt]
    simp only [bind_ok_eq]
    have htail : (do
        secBatchGo r m (I k) k 0
        secInstGo r m (k + 1) nInst (I k) : Except RunnerError Inputs) =
        .ok (if k < nInst then I (nInst - 1) else prev) := by
      rw [secBatchGo_ok r m (I k) k (r.batchSize - 0) 0 rfl
        (fun j h1 h2 => htr k (le_refl k) hklt j h2)]
      simp only [bind_ok_eq]
      rw [ih (k + 1) nInst (I k) (by omega) (by omega)
        (fun j h1 h2 => hread j (by omega) h2)
        (fun j h1 h2 => hhead j (by omega) h2)
        (fun h0 hlt => hhead k (le_refl k) hlt)
        (fun j h1 h2 => htr j (by omega) h2)]
      by_cases hk1 : k + 1 < nInst
      · rw [if_pos hk1, if_pos hklt]
      · rw [if_neg hk1, if_pos hklt]
        have hni : nInst - 1 = k := by omega
        rw [hni]
    by_cases hc : k ≠ 0 ∧ r.batchSize < prev.n
    · rw [if_pos hc]
      obtain ⟨hpv, hvp, hop2, hn⟩ := hlink hc.1 hklt hc.2
      rw [checkHeaders_ok r prev (I k) hpv hvp hop2 hn]
      simp only [bind_ok_eq]
      exact htail
    · rw [if_neg hc]
      exact htail

theorem secInstGo_fail (r : ModBuiltinRunner) (m : Memory) (I : Nat → Inputs)
    (i0 jf a b c : Nat) (hj : jf < r.batchSize)
    (hrd : read_memory_vars r m (I i0).valuesPtr (I i0).offsetsPtr jf = .ok (a, b, c))
    (hp0 : (I i0).p ≠ 0)
    (hrel : opValue r.securityOp a b % (I i0).p ≠ c % (I i0).p)
    (hjtr : ∀ j, j < jf → tripleOkProp r m (I i0) j) :
    ∀ f k nInst (prev : Inputs), f = nInst - k → k ≤ i0 → i0 < nInst →
    (∀ j, k ≤ j → j ≤ i0 → read_inputs r m ⟨r.base, j * INPUT_CELLS⟩ = .ok (I j)) →
    (∀ j, k ≤ j → j + 1 ≤ i0 → headersOkProp r (I j) (I (j + 1))) →
    (k ≠ 0 → headersOkProp r prev (I k)) →
    (∀ j, k ≤ j → j < i0 → ∀ idx, idx < r.batchSize → tripleOkProp r m (I j) idx) →
    secInstGo r m k nInst prev =
      .error (.ModBuiltinSecurityCheck r.name
        (.tripleFailed i0 jf (I i0).p a b c)) := by
  intro f
  induction f with
  | zero =>
    intro k nInst prev hf hki hi hread hhead hlink htr
    omega
  | succ f ih =>
    intro k nInst prev hf hki hi hread hhead hlink htr
    have hklt : k < nInst := by omega
    rw [secInstGo]
    simp only [dif_pos hklt]
    rw [hread k (le_refl k) hki]
    simp only [bind_ok_eq]
    have htail : (do
        secBatchGo r m (I k) k 0
        secInstGo r m (k + 1) nInst (I k) : Except RunnerError Inputs) =
        .error (.ModBuiltinSecurityCheck r.name
          (.tripleFailed i0 jf (I i0).p a b c)) := by
      rcases Nat.eq_or_lt_of_le hki with heq | hlt
      · subst heq
        rw [secBatchGo_fail r m (I k) k jf a b c hj hrd hp0 hrel
          (r.batchSize - 0) 0 rfl (Nat.zero_le jf) (fun j h1 h2 => hjtr j h2)]
        simp only [bind_error_eq]
      · rw [secBatchGo_ok r m (I k) k (r.batchSize - 0) 0 rfl
          (fun j h1 h2 => htr k (le_refl k) hlt j h2)]
        simp only [bind_ok_eq]
        exact ih (k + 1) nInst (I k) (by omega) (by omega) hi
          (fun j h1 h2 => hread j (by omega) h2)
          (fun j h1 h2 => hhead j (by omega) h2)
          (fun h0 => hhead k (le_refl k) (by omega))
          (fun j h1 h2 => htr j (by omega) h2)
    by_cases hc : k ≠ 0 ∧ r.batchSize < prev.n
    · rw [if_pos hc]
      obtain ⟨hpv, hvp, hop2, hn⟩ := hlink hc.1 hc.2
      rw [checkHeaders_ok r prev (I k) hpv hvp hop2 hn]
      simp only [bind_ok_eq]
      exact htail
    · rw [if_neg hc]
      exact htail

/-- Claim C4: `run_additional_security_checks` reads every triple of every
instance and verifies `a op b ≡ c (mod p)` with `op` chosen by
`builtin_type`.  If instance `i0`'s triple `jf` is the first to fail the
algebraic check (all earlier instances and triples passing, headers
included, with nonzero moduli so Rust's `mod_floor` does not panic), the
check fails with `ModBuiltinSecurityCheck` reporting that instance, the
index in batch, `p`, `a`, `b` and `c`.  If every read succeeds, all header
invariants and triples pass, and the final instance's `n` equals
`batch_size`, the check returns `Ok`. -/
theorem security_checks_triple_verification (r : ModBuiltinRunner) (m : Memory)
    (segSize : Nat) (I : Nat → Inputs) :
    ((∀ k, k < (segSize + (INPUT_CELLS - 1)) / INPUT_CELLS →
        read_inputs r m ⟨r.base, k * INPUT_CELLS⟩ = .ok (I k)) →
     (∀ k, k + 1 < (segSize + (INPUT_CELLS - 1)) / INPUT_CELLS →
        headersOkProp r (I k) (I (k + 1))) →
     (∀ k, k < (segSize + (INPUT_CELLS - 1)) / INPUT_CELLS →
        ∀ idx, idx < r.batchSize → tripleOkProp r m (I k) idx) →
     ((segSize + (INPUT_CELLS - 1)) / INPUT_CELLS ≠ 0 →
        (I ((segSize + (INPUT_CELLS - 1)) / INPUT_CELLS - 1)).n = r.batchSize) →
     run_additional_security_checks r m segSize = .ok ()) ∧
    (∀ i0 jf a b c, i0 < (segSize + (INPUT_CELLS - 1)) / INPUT_CELLS →
     jf < r.batchSize →
     (∀ k, k ≤ i0 → read_inputs r m ⟨r.base, k * INPUT_CELLS⟩ = .ok (I k)) →
     (∀ k, k + 1 ≤ i0 → headersOkProp r (I k) (I (k + 1))) →
     (∀ k, k < i0 → ∀ idx, idx < r.batchSize → tripleOkProp r m (I k) idx) →
     (∀ j, j < jf → tripleOkProp r m (I i0) j) →
     read_memory_vars r m (I i0).valuesPtr (I i0).offsetsPtr jf = .ok (a, b, c) →
     (I i0).p ≠ 0 →
     opValue r.securityOp a b % (I i0).p ≠ c % (I i0).p →
     run_additional_security_checks r m segSize =
       .error (.ModBuiltinSecurityCheck r.name
         (.tripleFailed i0 jf (I i0).p a b c))) := by
  constructor
  · intro hread hhead htr hlast
    simp only [run_additional_security_checks]
    rw [secInstGo_ok r m I ((segSize + (INPUT_CELLS - 1)) / INPUT_CELLS - 0) 0
      ((segSize + (INPUT_CELLS - 1)) / INPUT_CELLS) default rfl (Nat.zero_le _)
      (fun j h1 h2 => hread j h2)
      (fun j h1 h2 => hhead j h2)
      (fun h0 => absurd rfl h0)
      (fun j h1 h2 => htr j h2)]
    simp only [bind_ok_eq]
    by_cases hn0 : (segSize + (INPUT_CELLS - 1)) / INPUT_CELLS = 0
    · have hfalse : ¬ ((segSize + (INPUT_CELLS - 1)) / INPUT_CELLS ≠ 0 ∧
          (if 0 < (segSize + (INPUT_CELLS - 1)) / INPUT_CELLS
           then I ((segSize + (INPUT_CELLS - 1)) / INPUT_CELLS - 1)
           else default).n ≠ r.batchSize) :=
        fun hcon => hcon.1 hn0
      rw [if_neg hfalse]
    · rw [if_pos (Nat.pos_of_ne_zero hn0)]
      have hfalse : ¬ ((segSize + (INPUT_CELLS - 1)) / INPUT_CELLS ≠ 0 ∧
          (I ((segSize + (INPUT_CELLS - 1)) / INPUT_CELLS - 1)).n ≠ r.batchSize) :=
        fun hcon => hcon.2 (hlast hn0)
      rw [if_neg hfalse]
  · intro i0 jf a b c hi0 hjf hread hhead htr hjtr hrd hp0 hrel
    simp only [run_additional_security_checks]
    rw [secInstGo_fail r m I i0 jf a b c hjf hrd hp0 hrel hjtr
      ((segSize + (INPUT_CELLS - 1)) / INPUT_CELLS - 0) 0
      ((segSize + (INPUT_CELLS - 1)) / INPUT_CELLS) default rfl (Nat.zero_le _) hi0
      (fun j h1 h2 => hread j h2)
      (fun j h1 h2 => hhead j h2)
      (fun h0 => absurd rfl h0)
      (fun j h1 h2 => htr j h2)]
    simp only [bind_error_eq]

/-- Memory for the C4 witness: like the C1 scenario but with a consistent
triple (`1 + 1 ≡ 2 (mod 7)`). -/
def c4Memory : Memory :=
  [(⟨0, 0⟩, .int 7), (⟨0, 1⟩, .int 0), (⟨0, 2⟩, .int 0), (⟨0, 3⟩, .int 0),
   (⟨0, 4⟩, .rel ⟨1, 0⟩), (⟨0, 5⟩, .rel ⟨2, 0⟩), (⟨0, 6⟩, .int 1),
   (⟨2, 0⟩, .int 0), (⟨2, 1⟩, .int 4), (⟨2, 2⟩, .int 8),
   (⟨1, 0⟩, .int 1), (⟨1, 1⟩, .int 0), (⟨1, 2⟩, .int 0), (⟨1, 3⟩, .int 0),
   (⟨1, 4⟩, .int 1), (⟨1, 5⟩, .int 0), (⟨1, 6⟩, .int 0), (⟨1, 7⟩, .int 0),
   (⟨1, 8⟩, .int 2), (⟨1, 9⟩, .int 0), (⟨1, 10⟩, .int 0), (⟨1, 11⟩, .int 0)]

theorem c4_read_inputs_eq :
    read_inputs c1Runner c4Memory ⟨0, 0⟩ =
      .ok ⟨7, [7, 0, 0, 0], ⟨1, 0⟩, ⟨2, 0⟩, 1⟩ := by
  simp [c1Runner, c4Memory, read_inputs, read_n_words_value, readNWordsGo,
    Memory.get, Memory.getInteger, Memory.getRelocatable, Memory.getUsize,
    Relocatable.add_def, ModBuiltinRunner.shift, N_WORDS,
    VALUES_PTR_OFFSET, OFFSETS_PTR_OFFSET, N_OFFSET, bind_ok_eq]

theorem c4_read_memory_vars_eq :
    read_memory_vars c1Runner c4Memory ⟨1, 0⟩ ⟨2, 0⟩ 0 = .ok (1, 1, 2) := by
  simp [c1Runner, c4Memory, read_memory_vars, computeValue, read_n_words_value,
    readNWordsGo, Memory.get, Memory.getUsize, Memory.getInteger,
    Relocatable.add_def, ModBuiltinRunner.shift, N_WORDS, bind_ok_eq]

theorem c1_read_memory_vars_eq :
    read_memory_vars c1Runner c1Memory ⟨1, 0⟩ ⟨2, 0⟩ 0 = .ok (1, 1, 5) := by
  simp [c1Runner, c1Memory, read_memory_vars, computeValue, read_n_words_value,
    readNWordsGo, Memory.get, Memory.getUsize, Memory.getInteger,
    Relocatable.add_def, ModBuiltinRunner.shift, N_WORDS, bind_ok_eq]

theorem security_checks_triple_verification_witness :
    run_additional_security_checks c1Runner c4Memory 7 = .ok () ∧
    run_additional_security_checks c1Runner c1Memory 7 =
      .error (.ModBuiltinSecurityCheck "add_mod_builtin"
        (.tripleFailed 0 0 7 1 1 5)) := by
  constructor
  · refine (security_checks_triple_verification c1Runner c4Memory 7
      (fun _ => ⟨7, [7, 0, 0, 0], ⟨1, 0⟩, ⟨2, 0⟩, 1⟩)).1 ?_ ?_ ?_ ?_
    · intro k hk
      have hk1 : k < 1 := by simpa [INPUT_CELLS] using hk
      have hk0 : k = 0 := by omega
      subst hk0
      exact c4_read_inputs_eq
    · intro k hk
      have hk1 : k + 1 < 1 := by simpa [INPUT_CELLS] using hk
      omega
    · intro k hk idx hidx
      have hk1 : k < 1 := by simpa [INPUT_CELLS] using hk
      have hk0 : k = 0 := by omega
      have hidx1 : idx < 1 := by simpa [c1Runner] using hidx
      have hidx0 : idx = 0 := by omega
      subst hk0
      subst hidx0
      exact ⟨1, 1, 2, c4_read_memory_vars_eq, by decide, by decide⟩
    · intro h0
      rfl
  · refine (security_checks_triple_verification c1Runner c1Memory 7
      (fun _ => ⟨7, [7, 0, 0, 0], ⟨1, 0⟩, ⟨2, 0⟩, 1⟩)).2 0 0 1 1 5
      (by decide) (by decide) ?_ ?_ ?_ ?_ ?_ (by decide) (by decide)
    · intro k hk
      have hk0 : k = 0 := by omega
      subst hk0
      exact c1_read_inputs_eq
    · intro k hk
      omega
    · intro k hk
      omega
    · intro j hj
      omega
    · exact c1_read_memory_vars_eq

end ModBuiltin
